import Mathlib

/-!
# Verification of the trail-map geospatial core

A shallow embedding, in Lean 4, of the geospatial subsystem of the trail-map
viewer (`src/util.ts` and the route finder of `src/index.ts`), together with
proofs and refutations of the stated properties.

Modelling conventions:
* JavaScript numbers used as coordinates are modelled by `ℚ` (the arithmetic
  performed on them — sums, products, divisions, `Math.floor`, `Math.ceil`,
  comparisons — is exact rational arithmetic).
* JavaScript bitwise operators work on 32-bit two's complement integers
  obtained by `ToInt32`/`ToUint32`; they are modelled exactly on `ℤ`
  (`toInt32`, `toUint32`, `jsShl`, `jsShr`, `jsAnd` below).
* `Math.sqrt` and the haversine distance are irrational; they are abstracted
  as parameters (`sq`, `dm`) of the route-finder definitions.  All theorems
  about the route finder hold for every interpretation of these parameters,
  and counterexamples instantiate them with functions that agree with the
  real ones at every value actually inspected.
* A thrown JavaScript exception is modelled by `Option`/`Except` `none`-like
  results; the two unbounded loops of the source receive an explicit fuel
  parameter, and exhausting every fuel models divergence.
-/

set_option maxRecDepth 2000

/-! ## JavaScript 32-bit integer primitives -/

/-- ECMAScript `ToUint32`: the number modulo 2^32, as a natural number. -/
def toUint32 (a : ℤ) : ℕ := (a % 4294967296).toNat

/-- ECMAScript `ToInt32`: the number modulo 2^32, reinterpreted as a signed
32-bit two's complement value. -/
def toInt32 (a : ℤ) : ℤ :=
  if toUint32 a < 2147483648 then (toUint32 a : ℤ) else (toUint32 a : ℤ) - 4294967296

/-- The shift count used by the JS shift operators: `ToUint32(k) & 31`. -/
def jsShiftCount (k : ℤ) : ℕ := (k % 32).toNat

/-- JavaScript `a << k` on numbers. -/
def jsShl (a k : ℤ) : ℤ := toInt32 (a * 2 ^ jsShiftCount k)

/-- JavaScript `a >> k` (sign-propagating right shift) on numbers:
an arithmetic shift is floor division by a power of two. -/
def jsShr (a k : ℤ) : ℤ := toInt32 a / 2 ^ jsShiftCount k

/-- JavaScript `a & b` on numbers. -/
def jsAnd (a b : ℤ) : ℤ := toInt32 ((toUint32 a &&& toUint32 b : ℕ) : ℤ)

/-! ## Tile id codec (`src/util.ts`, `encodeTile` / `decodeTile`) -/

/-- maximum zoom level to handle tiles at (`MAX_ZOOM` in `util.ts`). -/
def MAX_ZOOM : ℤ := 16

/-- Tiles zoom + coordinate can be encoded into a single 32 bit integer
(with zoom <= 15); `MAX_ZOOM_ENCODE` in `util.ts`. -/
def MAX_ZOOM_ENCODE : ℤ := 15

/-- `encodeTile` of `util.ts`: encode a tile to a 32-bit integer.
Two-bit header: `0b11` = zoom 15, `0b10` = zoom 14, `0b00` = zoom 0-13
(4-bit zoom field follows); then x in the low `z` bits and y in the next
`z` bits.  The source performs no zoom validation whatsoever. -/
def encodeTile (z x y : ℤ) : ℤ :=
  let header : ℤ := if z = 15 then 3 else if z = 14 then 2 else 0
  let res : ℤ := 0 + jsShl header 30
  let res : ℤ := if z < 14 then res + jsShl (jsAnd z 15) 26 else res
  let res : ℤ := res + jsAnd x (jsShl 1 z - 1)
  let res : ℤ := res + jsShl (jsAnd y (jsShl 1 z - 1)) z
  res

/-- A tile id `[z, x, y]` (`TileId` in `util.ts`). -/
abbrev TileId : Type := ℤ × ℤ × ℤ

/-- `decodeTile` of `util.ts`: decode a tile from a 32-bit integer,
returning `(z, x, y)`. -/
def decodeTile (tile : ℤ) : TileId :=
  let header := jsAnd (jsShr tile 30) 3
  let z := if header = 3 then 15 else if header = 2 then 14 else jsAnd (jsShr tile 26) 15
  let x := jsAnd tile (jsShl 1 z - 1)
  let y := jsAnd (jsShr tile z) (jsShl 1 z - 1)
  (z, x, y)

/-! ### Arithmetic lemmas for the codec -/

lemma toUint32_eq (a : ℤ) (h0 : 0 ≤ a) (h1 : a < 4294967296) : (toUint32 a : ℤ) = a := by
  unfold toUint32
  rw [Int.emod_eq_of_lt h0 h1, Int.toNat_of_nonneg h0]

lemma toInt32_of_nonneg (a : ℤ) (h0 : 0 ≤ a) (h1 : a < 2147483648) : toInt32 a = a := by
  unfold toInt32
  have hu : (toUint32 a : ℤ) = a := toUint32_eq a h0 (by omega)
  have : toUint32 a < 2147483648 := by omega
  rw [if_pos this, hu]

lemma toInt32_of_neg (a : ℤ) (h0 : -2147483648 ≤ a) (h1 : a < 0) : toInt32 a = a := by
  unfold toInt32 toUint32
  have he : a % 4294967296 = a + 4294967296 := by omega
  have hnn : (0 : ℤ) ≤ a + 4294967296 := by omega
  rw [he]
  have ht : ((a + 4294967296).toNat : ℤ) = a + 4294967296 := Int.toNat_of_nonneg hnn
  have : ¬ ((a + 4294967296).toNat < 2147483648) := by omega
  rw [if_neg this, ht]
  ring

lemma jsShiftCount_eq (k : ℤ) (h0 : 0 ≤ k) (h1 : k < 32) : jsShiftCount k = k.toNat := by
  unfold jsShiftCount
  rw [Int.emod_eq_of_lt h0 h1]

lemma jsShl_one (k : ℤ) (h0 : 0 ≤ k) (h1 : k ≤ 30) : jsShl 1 k = 2 ^ k.toNat := by
  unfold jsShl
  rw [jsShiftCount_eq k h0 (by omega), one_mul]
  refine toInt32_of_nonneg _ (by positivity) ?_
  calc (2:ℤ) ^ k.toNat ≤ 2 ^ 30 := by
        exact pow_le_pow_right₀ (by norm_num) (by omega)
    _ < 2147483648 := by norm_num

lemma jsAnd_mask (a : ℤ) (z : ℕ) (hz : z ≤ 31) :
    jsAnd a (2 ^ z - 1) = (a % 4294967296) % 2 ^ z := by
  unfold jsAnd
  have h2z : (2:ℤ) ^ z - 1 < 4294967296 := by
    have : (2:ℤ) ^ z ≤ 2 ^ 31 := pow_le_pow_right₀ (by norm_num) hz
    norm_num at this ⊢; omega
  have h2z0 : (0:ℤ) ≤ 2 ^ z - 1 := by
    have : (1:ℤ) ≤ 2 ^ z := one_le_pow₀ (by norm_num)
    omega
  have hzcast : ((2:ℤ) ^ z) = ((2 ^ z : ℕ) : ℤ) := by push_cast; ring
  have hz1 : 1 ≤ (2:ℕ) ^ z := Nat.one_le_two_pow
  have hmask : toUint32 (2 ^ z - 1) = 2 ^ z - 1 := by
    unfold toUint32
    rw [Int.emod_eq_of_lt h2z0 h2z, hzcast]
    omega
  rw [hmask]
  rw [Nat.and_pow_two_sub_one_eq_mod]
  have hlt : toUint32 a % 2 ^ z < 2147483648 := by
    have h1 : toUint32 a % 2 ^ z < 2 ^ z := Nat.mod_lt _ (Nat.pos_pow_of_pos z (by norm_num))
    have h2 : (2:ℕ) ^ z ≤ 2 ^ 31 := Nat.pow_le_pow_right (by norm_num) hz
    calc toUint32 a % 2 ^ z < 2 ^ z := h1
      _ ≤ 2 ^ 31 := h2
      _ ≤ 2147483648 := by norm_num
  unfold toInt32
  have hu : toUint32 ((toUint32 a % 2 ^ z : ℕ) : ℤ) = toUint32 a % 2 ^ z := by
    have hcast : ((toUint32 a % 2 ^ z : ℕ) : ℤ) < 4294967296 := by
      exact_mod_cast (by omega : toUint32 a % 2 ^ z < 4294967296)
    have := toUint32_eq ((toUint32 a % 2 ^ z : ℕ) : ℤ) (by positivity) hcast
    omega
  rw [hu, if_pos hlt]
  unfold toUint32
  have hnn : 0 ≤ a % 4294967296 := Int.emod_nonneg a (by norm_num)
  push_cast
  rw [Int.toNat_of_nonneg hnn]

example : decodeTile (encodeTile 7 5 9) = (7, 5, 9) := by decide
example : decodeTile (encodeTile 15 32767 32767) = (15, 32767, 32767) := by decide
example : decodeTile (encodeTile 14 16383 1) = (14, 16383, 1) := by decide
example : decodeTile (encodeTile 0 0 0) = (0, 0, 0) := by decide

lemma jsAnd_small (a : ℤ) (z : ℕ) (hz : z ≤ 31) (h0 : 0 ≤ a) (h1 : a < 2 ^ z) :
    jsAnd a (2 ^ z - 1) = a := by
  rw [jsAnd_mask a z hz]
  have hb : (2:ℤ) ^ z ≤ 2 ^ 31 := pow_le_pow_right₀ (by norm_num) hz
  have ha32 : a < 4294967296 := by norm_num at hb; omega
  rw [Int.emod_eq_of_lt h0 ha32, Int.emod_eq_of_lt h0 h1]

/-- Closed form of the encoder at zoom 15 over the contract range. -/
lemma encodeTile_15 (x y : ℤ) (hx0 : 0 ≤ x) (hx : x < 32768) (hy0 : 0 ≤ y) (hy : y < 32768) :
    encodeTile 15 x y = -1073741824 + x + y * 32768 := by
  simp only [encodeTile]
  norm_num
  have hmask : jsShl 1 15 - 1 = (2:ℤ) ^ 15 - 1 := by decide
  have h3 : jsShl 3 30 = -1073741824 := by decide
  have hax : jsAnd x (jsShl 1 15 - 1) = x := by
    rw [hmask]; exact jsAnd_small x 15 (by norm_num) hx0 (by norm_num; omega)
  have hay : jsAnd y (jsShl 1 15 - 1) = y := by
    rw [hmask]; exact jsAnd_small y 15 (by norm_num) hy0 (by norm_num; omega)
  have hsy : jsShl y 15 = y * 32768 := by
    unfold jsShl
    rw [show jsShiftCount 15 = 15 from rfl]
    exact toInt32_of_nonneg _ (by positivity) (by norm_num; omega)
  rw [h3, hax, hay, hsy]

/-- Roundtrip at zoom 15. -/
lemma decode_encode_15 (x y : ℤ) (hx0 : 0 ≤ x) (hx : x < 32768) (hy0 : 0 ≤ y) (hy : y < 32768) :
    decodeTile (encodeTile 15 x y) = (15, x, y) := by
  rw [encodeTile_15 x y hx0 hx hy0 hy]
  set t : ℤ := -1073741824 + x + y * 32768 with ht
  have ht0 : -1073741824 ≤ t := by omega
  have ht1 : t < 0 := by omega
  have hi32 : toInt32 t = t := toInt32_of_neg t (by omega) ht1
  simp only [decodeTile]
  have hshr30 : jsShr t 30 = -1 := by
    unfold jsShr
    rw [show jsShiftCount 30 = 30 from rfl, hi32]
    omega
  have hheader : jsAnd (jsShr t 30) 3 = 3 := by rw [hshr30]; decide
  rw [hheader]
  norm_num
  have hmask : jsShl 1 15 - 1 = (2:ℤ) ^ 15 - 1 := by decide
  have hx' : jsAnd t (jsShl 1 15 - 1) = x := by
    rw [hmask, jsAnd_mask t 15 (by norm_num)]
    omega
  have hy' : jsAnd (jsShr t 15) (jsShl 1 15 - 1) = y := by
    have hshr15 : jsShr t 15 = y - 32768 := by
      unfold jsShr
      rw [show jsShiftCount 15 = 15 from rfl, hi32]
      omega
    rw [hshr15, hmask, jsAnd_mask _ 15 (by norm_num)]
    omega
  rw [hx', hy']
  exact ⟨rfl, rfl⟩


/-- Closed form of the encoder at zoom 14 over the contract range. -/
lemma encodeTile_14 (x y : ℤ) (hx0 : 0 ≤ x) (hx : x < 16384) (hy0 : 0 ≤ y) (hy : y < 16384) :
    encodeTile 14 x y = -2147483648 + x + y * 16384 := by
  simp only [encodeTile]
  norm_num
  have hmask : jsShl 1 14 - 1 = (2:ℤ) ^ 14 - 1 := by decide
  have h2 : jsShl 2 30 = -2147483648 := by decide
  have hax : jsAnd x (jsShl 1 14 - 1) = x := by
    rw [hmask]; exact jsAnd_small x 14 (by norm_num) hx0 (by norm_num; omega)
  have hay : jsAnd y (jsShl 1 14 - 1) = y := by
    rw [hmask]; exact jsAnd_small y 14 (by norm_num) hy0 (by norm_num; omega)
  have hsy : jsShl y 14 = y * 16384 := by
    unfold jsShl
    rw [show jsShiftCount 14 = 14 from rfl]
    exact toInt32_of_nonneg _ (by positivity) (by norm_num; omega)
  rw [h2, hax, hay, hsy]

/-- Roundtrip at zoom 14. -/
lemma decode_encode_14 (x y : ℤ) (hx0 : 0 ≤ x) (hx : x < 16384) (hy0 : 0 ≤ y) (hy : y < 16384) :
    decodeTile (encodeTile 14 x y) = (14, x, y) := by
  rw [encodeTile_14 x y hx0 hx hy0 hy]
  set t : ℤ := -2147483648 + x + y * 16384 with ht
  have hi32 : toInt32 t = t := toInt32_of_neg t (by omega) (by omega)
  simp only [decodeTile]
  have hshr30 : jsShr t 30 = -2 := by
    unfold jsShr
    rw [show jsShiftCount 30 = 30 from rfl, hi32]
    omega
  have hheader : jsAnd (jsShr t 30) 3 = 2 := by rw [hshr30]; decide
  rw [hheader]
  norm_num
  have hmask : jsShl 1 14 - 1 = (2:ℤ) ^ 14 - 1 := by decide
  have hx' : jsAnd t (jsShl 1 14 - 1) = x := by
    rw [hmask, jsAnd_mask t 14 (by norm_num)]
    omega
  have hy' : jsAnd (jsShr t 14) (jsShl 1 14 - 1) = y := by
    have hshr14 : jsShr t 14 = y - 131072 := by
      unfold jsShr
      rw [show jsShiftCount 14 = 14 from rfl, hi32]
      omega
    rw [hshr14, hmask, jsAnd_mask _ 14 (by norm_num)]
    omega
  rw [hx', hy']
  exact ⟨rfl, rfl⟩

/-- Roundtrip at zooms 0–13 (header `00`, explicit 4-bit zoom field). -/
lemma decode_encode_le13 (z : ℕ) (hz : z ≤ 13) (x y : ℤ)
    (hx0 : 0 ≤ x) (hx : x < 2 ^ z) (hy0 : 0 ≤ y) (hy : y < 2 ^ z) :
    decodeTile (encodeTile z x y) = ((z : ℤ), x, y) := by
  have hP : (2:ℤ) ^ z ≤ 8192 := by
    calc (2:ℤ) ^ z ≤ 2 ^ 13 := pow_le_pow_right₀ (by norm_num) hz
      _ = 8192 := by norm_num
  have hP1 : (1:ℤ) ≤ 2 ^ z := one_le_pow₀ (by norm_num)
  have hyP : y * 2 ^ z ≤ 8191 * 8192 :=
    mul_le_mul (by omega) hP (by positivity) (by norm_num)
  have hyP0 : 0 ≤ y * 2 ^ z := by positivity
  -- the encoder closed form
  have hzn15 : ((z:ℤ)) ≠ 15 := by omega
  have hzn14 : ((z:ℤ)) ≠ 14 := by omega
  have hzlt14 : ((z:ℤ)) < 14 := by omega
  have hshl0 : jsShl 0 30 = 0 := by decide
  have handz : jsAnd (z:ℤ) 15 = (z:ℤ) := by
    have h : (15:ℤ) = 2 ^ 4 - 1 := by norm_num
    rw [h]
    exact jsAnd_small _ 4 (by norm_num) (by positivity) (by norm_num; omega)
  have hshlz : jsShl (z:ℤ) 26 = (z:ℤ) * 67108864 := by
    unfold jsShl
    rw [show jsShiftCount 26 = 26 from rfl, show ((2:ℤ) ^ 26) = 67108864 from by norm_num]
    exact toInt32_of_nonneg _ (by omega) (by omega)
  have hshl1z : jsShl 1 (z:ℤ) = 2 ^ z := by
    rw [jsShl_one (z:ℤ) (by positivity) (by omega)]
    norm_num
  have handx : jsAnd x (jsShl 1 (z:ℤ) - 1) = x := by
    rw [hshl1z]; exact jsAnd_small x z (by omega) hx0 hx
  have handy : jsAnd y (jsShl 1 (z:ℤ) - 1) = y := by
    rw [hshl1z]; exact jsAnd_small y z (by omega) hy0 hy
  have hshly : jsShl y (z:ℤ) = y * 2 ^ z := by
    unfold jsShl
    rw [jsShiftCount_eq (z:ℤ) (by positivity) (by omega)]
    have : ((z:ℤ)).toNat = z := by omega
    rw [this]
    exact toInt32_of_nonneg _ (by positivity) (by omega)
  have henc : encodeTile z x y = (z:ℤ) * 67108864 + x + y * 2 ^ z := by
    simp only [encodeTile]
    rw [if_neg hzn15, if_neg hzn14, if_pos hzlt14, hshl0, handz, hshlz, handx, handy, hshly]
    ring
  rw [henc]
  set t : ℤ := (z:ℤ) * 67108864 + x + y * 2 ^ z with htdef
  have hzc : (0:ℤ) ≤ (z:ℤ) := by positivity
  have ht0 : 0 ≤ t := by omega
  have ht1 : t < 1073741824 := by omega
  have hi32 : toInt32 t = t := toInt32_of_nonneg t ht0 (by omega)
  -- the x + y·2^z tail is below the zoom field
  have htail : x + y * 2 ^ z < 67108864 := by
    have : y * 2 ^ z ≤ (2 ^ z - 1) * 2 ^ z :=
      mul_le_mul_of_nonneg_right (by omega) (by positivity)
    have hsq : (2:ℤ) ^ z * 2 ^ z ≤ 67108864 := by
      have h1 : (2:ℤ) ^ z * 2 ^ z = 2 ^ (z + z) := by rw [pow_add]
      rw [h1]
      calc (2:ℤ) ^ (z + z) ≤ 2 ^ 26 := pow_le_pow_right₀ (by norm_num) (by omega)
        _ = 67108864 := by norm_num
    nlinarith
  simp only [decodeTile]
  have hshr30 : jsShr t 30 = 0 := by
    unfold jsShr
    rw [show jsShiftCount 30 = 30 from rfl, hi32]
    omega
  have hheader : jsAnd (jsShr t 30) 3 = 0 := by rw [hshr30]; decide
  rw [hheader]
  norm_num
  -- the decoded zoom field
  have hsplit : (2:ℤ) ^ 26 = 2 ^ (26 - z) * 2 ^ z := by
    rw [← pow_add]
    congr 1
    omega
  have hshr26 : jsShr t 26 = (z:ℤ) := by
    unfold jsShr
    rw [show jsShiftCount 26 = 26 from rfl, hi32]
    omega
  have hz' : jsAnd (jsShr t 26) 15 = (z:ℤ) := by rw [hshr26]; exact handz
  rw [hz', hshl1z]
  -- the decoded x field
  have hmod32 : t % 4294967296 = t := Int.emod_eq_of_lt ht0 (by omega)
  have hteq : t = x + ((z:ℤ) * 2 ^ (26 - z) + y) * 2 ^ z := by
    rw [htdef]
    have : (z:ℤ) * 67108864 = (z:ℤ) * 2 ^ (26 - z) * 2 ^ z := by
      rw [mul_assoc, ← hsplit]; norm_num
    rw [this]; ring
  have hx' : jsAnd t (2 ^ z - 1) = x := by
    rw [jsAnd_mask t z (by omega), hmod32, hteq, Int.add_mul_emod_self,
        Int.emod_eq_of_lt hx0 hx]
  -- the decoded y field
  have hk0 : 0 ≤ (z:ℤ) * 2 ^ (26 - z) + y := by positivity
  have hk1 : (z:ℤ) * 2 ^ (26 - z) + y < 2147483648 := by
    have h1 : (2:ℤ) ^ (26 - z) ≤ 2 ^ 26 := pow_le_pow_right₀ (by norm_num) (by omega)
    have h2 : (z:ℤ) * 2 ^ (26 - z) ≤ 13 * 2 ^ 26 :=
      mul_le_mul (by omega) h1 (by positivity) (by norm_num)
    norm_num at h2 ⊢
    omega
  have hshrz : jsShr t (z:ℤ) = (z:ℤ) * 2 ^ (26 - z) + y := by
    unfold jsShr
    rw [jsShiftCount_eq (z:ℤ) (by positivity) (by omega)]
    have hzt : ((z:ℤ)).toNat = z := by omega
    rw [hzt, hi32, hteq, Int.add_mul_ediv_right _ _ (by positivity : (0:ℤ) < 2 ^ z).ne',
        Int.ediv_eq_zero_of_lt hx0 hx]
    ring
  have hysplit : (z:ℤ) * 2 ^ (26 - z) + y = y + (z:ℤ) * 2 ^ (26 - z - z) * 2 ^ z := by
    have h1 : (2:ℤ) ^ (26 - z) = 2 ^ (26 - z - z) * 2 ^ z := by
      rw [← pow_add]
      congr 1
      omega
    rw [h1]; ring
  have hy' : jsAnd (jsShr t (z:ℤ)) (2 ^ z - 1) = y := by
    rw [hshrz, jsAnd_mask _ z (by omega),
        Int.emod_eq_of_lt hk0 (by omega), hysplit, Int.add_mul_emod_self,
        Int.emod_eq_of_lt hy0 hy]
  rw [hx', hy']
  exact ⟨rfl, rfl, rfl⟩

/-- **C1.** For every zoom `z` with `0 ≤ z ≤ 15` and every `x, y` with
`0 ≤ x, y < 2^z`, `decodeTile (encodeTile z x y)` returns exactly `(z, x, y)`. -/
theorem C1_decode_encode_roundtrip (z : ℕ) (hz : z ≤ 15) (x y : ℤ)
    (hx0 : 0 ≤ x) (hx : x < 2 ^ z) (hy0 : 0 ≤ y) (hy : y < 2 ^ z) :
    decodeTile (encodeTile z x y) = ((z : ℤ), x, y) := by
  by_cases h15 : z = 15
  · subst h15
    have hx' : x < 32768 := by norm_num at hx; omega
    have hy' : y < 32768 := by norm_num at hy; omega
    exact_mod_cast decode_encode_15 x y hx0 hx' hy0 hy'
  · by_cases h14 : z = 14
    · subst h14
      have hx' : x < 16384 := by norm_num at hx; omega
      have hy' : y < 16384 := by norm_num at hy; omega
      exact_mod_cast decode_encode_14 x y hx0 hx' hy0 hy'
    · exact decode_encode_le13 z (by omega) x y hx0 hx hy0 hy

/-- Witness for C1 at a concrete input. -/
theorem C1_decode_encode_roundtrip_witness :
    decodeTile (encodeTile 9 37 500) = (9, 37, 500) := by
  have h := C1_decode_encode_roundtrip 9 (by norm_num) 37 500
    (by norm_num) (by norm_num) (by norm_num) (by norm_num)
  exact_mod_cast h

/-- **C9 (counterexample).** The claim says that for zoom `z > 15` the encoder
rejects the input as a precondition violation rather than silently truncating.
In fact `encodeTile` performs no validation: at zoom 16 the x coordinates
`65541` and `5` are silently truncated to the same encoding (the high bits of
`x` are masked away), and the resulting word decodes to zoom `0`, not 16. -/
theorem C9_counterexample_encode_16_truncates :
    encodeTile 16 65541 0 = encodeTile 16 5 0 ∧
    encodeTile 16 65541 0 = 5 ∧
    decodeTile (encodeTile 16 65541 0) = (0, 0, 0) := by
  refine ⟨by decide, by decide, by decide⟩

/-- **C9 (amended).** `encodeTile` does not reject zooms above 15: it returns
normally, silently truncating `x` and `y` to their low bits (at zoom 16 they
are reduced mod 2^16 and the zoom field is not even written), and no encoding
ever decodes back to a zoom above 15. -/
theorem C9_amended_encode_high_zoom_truncates :
    (∀ x y : ℤ, encodeTile 16 x y = encodeTile 16 (x % 65536) (y % 65536)) ∧
    (∀ t : ℤ, (decodeTile t).1 ≤ 15) := by
  constructor
  · intro x y
    have hmask : jsShl 1 16 - 1 = (2:ℤ) ^ 16 - 1 := by decide
    have hand : ∀ a : ℤ, jsAnd a (jsShl 1 16 - 1) = jsAnd (a % 65536) (jsShl 1 16 - 1) := by
      intro a
      rw [hmask, jsAnd_mask a 16 (by norm_num), jsAnd_mask (a % 65536) 16 (by norm_num)]
      omega
    simp only [encodeTile]
    rw [if_neg (by norm_num), if_neg (by norm_num), if_neg (by norm_num),
        hand x, hand y]
  · intro t
    simp only [decodeTile]
    by_cases h3 : jsAnd (jsShr t 30) 3 = 3
    · rw [if_pos h3]
    · rw [if_neg h3]
      by_cases h2 : jsAnd (jsShr t 30) 3 = 2
      · rw [if_pos h2]; norm_num
      · rw [if_neg h2]
        have h : jsAnd (jsShr t 26) 15 = (jsShr t 26 % 4294967296) % 16 := by
          have h15 : (15:ℤ) = 2 ^ 4 - 1 := by norm_num
          rw [h15, jsAnd_mask _ 4 (by norm_num)]
          norm_num
        rw [h]
        omega

/-! ## Tile coordinates (`src/util.ts`, class `TileCoordinate`)

A tile coordinate stores its position as fixed-point numbers scaled to
`MAX_ZOOM` (16): the constructor computes `x * (1 << (MAX_ZOOM - zoom))`.
The JS constructor throws for `zoom > MAX_ZOOM`; this is modelled by
`TileCoordinate.make` returning `none`.  Coordinates are rationals. -/

structure TileCoordinate where
  x : ℚ
  y : ℚ
  deriving DecidableEq

/-- The `TileCoordinate` constructor.  `none` models the thrown
`zoom level ... is higher than maximum zoom` error. -/
def TileCoordinate.make (zoom : ℤ) (x y : ℚ) : Option TileCoordinate :=
  if zoom > MAX_ZOOM then none
  else some ⟨x * ((jsShl 1 (MAX_ZOOM - zoom) : ℤ) : ℚ), y * ((jsShl 1 (MAX_ZOOM - zoom) : ℤ) : ℚ)⟩

/-- `TileCoordinate.atZoom`: get x,y coordinates for the tile at the given
zoom level (`Math.pow(2.0, zoom - MAX_ZOOM)` is exact here). -/
def TileCoordinate.atZoom (c : TileCoordinate) (zoom : ℤ) : ℚ × ℚ :=
  (c.x * (2:ℚ) ^ (zoom - MAX_ZOOM), c.y * (2:ℚ) ^ (zoom - MAX_ZOOM))

/-- **C7 (counterexample).** The claim asserts that for *every* zoom ≤ 16 the
constructor succeeds and stores `(x·2^(16−zoom), y·2^(16−zoom))`.  For
`zoom = -15` the shift `1 << 31` overflows to `-2^31` in 32-bit arithmetic, so
the constructor stores `x · (-2^31)`, not `x · 2^31`. -/
theorem C7_counterexample_negative_zoom_shift_overflow :
    TileCoordinate.make (-15) 1 1 = some ⟨-2147483648, -2147483648⟩ ∧
    ((-2147483648 : ℚ)) ≠ (1:ℚ) * 2 ^ ((16:ℤ) - (-15)).toNat := by
  constructor
  · unfold TileCoordinate.make
    rw [if_neg (by unfold MAX_ZOOM; omega)]
    rw [show jsShl 1 (MAX_ZOOM - (-15)) = -2147483648 from by decide]
    norm_num
  · rw [show ((16:ℤ) - (-15)).toNat = 31 from rfl]
    norm_num

/-- **C7 (amended).** For every zoom > 16 the constructor fails (throws,
modelled as `none`) and never clamps; for every `-14 ≤ zoom ≤ 16` — in
particular for every actual zoom level `0 ≤ zoom ≤ 16` — it succeeds and
stores exactly the fixed-point position `(x·2^(16−zoom), y·2^(16−zoom))`. -/
theorem C7_amended_make_checks_zoom (zoom : ℤ) (x y : ℚ) :
    (16 < zoom → TileCoordinate.make zoom x y = none) ∧
    (-14 ≤ zoom → zoom ≤ 16 →
      TileCoordinate.make zoom x y =
        some ⟨x * 2 ^ (16 - zoom).toNat, y * 2 ^ (16 - zoom).toNat⟩) := by
  constructor
  · intro h
    unfold TileCoordinate.make
    rw [if_pos (by unfold MAX_ZOOM; omega)]
  · intro h0 h1
    unfold TileCoordinate.make
    rw [if_neg (by unfold MAX_ZOOM; omega)]
    have hshl : jsShl 1 (MAX_ZOOM - zoom) = 2 ^ ((16:ℤ) - zoom).toNat := by
      unfold MAX_ZOOM
      exact jsShl_one (16 - zoom) (by omega) (by omega)
    rw [hshl]
    push_cast
    rfl

/-- Witness for C7 (amended): zoom 17 is rejected, zoom 4 stores `x·2^12`. -/
theorem C7_amended_make_checks_zoom_witness :
    TileCoordinate.make 17 (1/2) (1/2) = none ∧
    TileCoordinate.make 4 (1/2) (3/4) = some ⟨(1/2) * 2 ^ 12, (3/4) * 2 ^ 12⟩ := by
  constructor
  · exact (C7_amended_make_checks_zoom 17 (1/2) (1/2)).1 (by norm_num)
  · exact (C7_amended_make_checks_zoom 4 (1/2) (3/4)).2 (by norm_num) (by norm_num)

/-! ## Viewport (`src/util.ts`, class `Viewport`)

A rectangle in zero-zoom tile space.  The JS methods mutate `this`; they are
modelled as functions returning the updated viewport.  `Math.pow(2.0, scale)`
in `zoom` is kept exact by taking an integer `scale` exponent. -/

structure Viewport where
  x0 : ℚ
  y0 : ℚ
  x1 : ℚ
  y1 : ℚ

/-- The documented invariant: the corners are ordered, `x0 < x1 ∧ y0 < y1`. -/
def Viewport.Ordered (v : Viewport) : Prop := v.x0 < v.x1 ∧ v.y0 < v.y1

/-- `Viewport.pan`: move the viewport in the `(dX, dY)` direction,
proportionally to the current span. -/
def Viewport.pan (v : Viewport) (dX dY : ℚ) : Viewport :=
  let sx := v.x1 - v.x0
  let sy := v.y1 - v.y0
  ⟨v.x0 + dX * sx, v.y0 + dY * sy, v.x1 + dX * sx, v.y1 + dY * sy⟩

/-- `Viewport.zoom`: scale both corners about the normalized center
`(cX, cY)` by the factor `2^scale`. -/
def Viewport.zoom (v : Viewport) (scale : ℤ) (cX cY : ℚ) : Viewport :=
  let sx := v.x1 - v.x0
  let sy := v.y1 - v.y0
  let cX := v.x0 + cX * sx
  let cY := v.y0 + cY * sy
  let d0X := v.x0 - cX
  let d0Y := v.y0 - cY
  let d1X := v.x1 - cX
  let d1Y := v.y1 - cY
  let factor : ℚ := (2:ℚ) ^ scale
  ⟨cX + d0X * factor, cY + d0Y * factor, cX + d1X * factor, cY + d1Y * factor⟩

/-- `Viewport.matchAspect`: adjust the width (preserving center and height)
to match the `width / height` aspect ratio. -/
def Viewport.matchAspect (v : Viewport) (width height : ℚ) : Viewport :=
  let cx := (v.x0 + v.x1) / 2
  let sy := v.y1 - v.y0
  let sx := sy * (width / height)
  ⟨cx - sx * (1/2), v.y0, cx + sx * (1/2), v.y1⟩

/-- **C8.** Every mutator preserves the viewport ordering invariant
`x0 < x1 ∧ y0 < y1`: `pan` for all offsets, `zoom` for every scale and
center (the factor `2^scale` is positive, so the rectangle is never
inverted), and `matchAspect` for positive width and height. -/
theorem C8_viewport_mutators_preserve_order (v : Viewport) (hv : v.Ordered) :
    (∀ dX dY : ℚ, (v.pan dX dY).Ordered) ∧
    (∀ (scale : ℤ) (cX cY : ℚ), (v.zoom scale cX cY).Ordered) ∧
    (∀ width height : ℚ, 0 < width → 0 < height → (v.matchAspect width height).Ordered) := by
  obtain ⟨hx, hy⟩ := hv
  refine ⟨?_, ?_, ?_⟩
  · intro dX dY
    constructor <;> (simp only [Viewport.pan, Viewport.Ordered]; linarith)
  · intro scale cX cY
    have hfac : (0:ℚ) < (2:ℚ) ^ scale := zpow_pos (by norm_num) scale
    constructor
    · simp only [Viewport.zoom, Viewport.Ordered]
      nlinarith
    · simp only [Viewport.zoom, Viewport.Ordered]
      nlinarith
  · intro width height hw hh
    have hratio : 0 < width / height := div_pos hw hh
    have hsx : 0 < (v.y1 - v.y0) * (width / height) := by
      apply mul_pos (by linarith) hratio
    constructor
    · simp only [Viewport.matchAspect, Viewport.Ordered]
      nlinarith
    · simpa only [Viewport.matchAspect, Viewport.Ordered] using hy

/-- Witness for C8 at a concrete viewport. -/
theorem C8_viewport_mutators_preserve_order_witness :
    ((Viewport.mk 0 0 1 1).pan (1/2) (1/2)).Ordered ∧
    ((Viewport.mk 0 0 1 1).zoom 3 (1/2) (1/2)).Ordered ∧
    ((Viewport.mk 0 0 1 1).matchAspect 4 3).Ordered := by
  have h := C8_viewport_mutators_preserve_order (Viewport.mk 0 0 1 1)
    ⟨by norm_num, by norm_num⟩
  exact ⟨h.1 (1/2) (1/2), h.2.1 3 (1/2) (1/2), h.2.2 4 3 (by norm_num) (by norm_num)⟩

/-! ## Line rasterization (`src/util.ts`, `lineCrossedTilesHorizontal` and
`getLineCrossedTiles`)

`lineCrossedTilesHorizontal` is a `while` loop marching the dominant
coordinate; it is modelled with an explicit fuel of `⌈x1⌉ - ⌊x0⌋ + 2`
iterations, which is enough whenever the JS loop terminates.
`getLineCrossedTiles` recurses into itself at most once (to normalize the
direction of the dominant axis); the recursion is modelled with fuel 2. -/

/-- The loop body of `lineCrossedTilesHorizontal`: one iteration emits the
cells `(⌊x⌋, hitY)` for `hitY` from `⌊min bound0 bound1⌋` to
`⌊max bound0 bound1⌋` and advances `x` to `nextX`. -/
def lineCrossedTilesHorizontalGo (x0 y0 x1 y1 dx dy : ℚ) : ℕ → ℚ → List (ℤ × ℤ)
  | 0, _ => []
  | fuel + 1, x =>
    if x < x1 then
      let nextX : ℚ := if x = x0 then (⌈x⌉ : ℚ) else if x + 1 > x1 then x1 else x + 1
      let bound0 := y0 + dy * ((x - x0) / dx)
      let bound1 := y0 + dy * ((nextX - x0) / dx)
      let lowY := ⌊min bound0 bound1⌋
      let highY := ⌊max bound0 bound1⌋
      (List.range (highY - lowY + 1).toNat).map (fun i => (⌊x⌋, lowY + (i : ℤ)))
        ++ lineCrossedTilesHorizontalGo x0 y0 x1 y1 dx dy fuel nextX
    else []

/-- `lineCrossedTilesHorizontal` of `util.ts`: the cells crossed by a
horizontal-ish line (`|dy/dx| ≤ 1`). -/
def lineCrossedTilesHorizontal (x0 y0 x1 y1 : ℚ) : List (ℤ × ℤ) :=
  lineCrossedTilesHorizontalGo x0 y0 x1 y1 (x1 - x0) (y1 - y0) (⌈x1⌉ - ⌊x0⌋ + 2).toNat x0

/-- `getLineCrossedTiles` of `util.ts` with the direction-normalizing
self-call made explicit: the function swaps its endpoints at most once, so
fuel 2 is exact. -/
def getLineCrossedTilesF : ℕ → TileCoordinate → TileCoordinate → ℤ → List TileId
  | 0, _, _, _ => []
  | fuel + 1, l0, l1, zoom =>
    let p0 := l0.atZoom zoom
    let p1 := l1.atZoom zoom
    let dx := p1.1 - p0.1
    let dy := p1.2 - p0.2
    if |dy| ≤ |dx| then
      if dx < 0 then getLineCrossedTilesF fuel l1 l0 zoom
      else (lineCrossedTilesHorizontal p0.1 p0.2 p1.1 p1.2).map
        (fun c => ((zoom, c.1, c.2) : TileId))
    else
      if dy < 0 then getLineCrossedTilesF fuel l1 l0 zoom
      else ((lineCrossedTilesHorizontal p0.2 p0.1 p1.2 p1.1).map (fun c => (c.2, c.1))).map
        (fun c => ((zoom, c.1, c.2) : TileId))

/-- Given two locations, all tiles crossed at the given zoom level. -/
def getLineCrossedTiles (l0 l1 : TileCoordinate) (zoom : ℤ) : List TileId :=
  getLineCrossedTilesF 2 l0 l1 zoom

lemma getLineCrossedTilesF_succ (fuel : ℕ) (l0 l1 : TileCoordinate) (zoom : ℤ) :
    getLineCrossedTilesF (fuel + 1) l0 l1 zoom =
      if |(l1.atZoom zoom).2 - (l0.atZoom zoom).2| ≤
          |(l1.atZoom zoom).1 - (l0.atZoom zoom).1| then
        if (l1.atZoom zoom).1 - (l0.atZoom zoom).1 < 0 then
          getLineCrossedTilesF fuel l1 l0 zoom
        else (lineCrossedTilesHorizontal (l0.atZoom zoom).1 (l0.atZoom zoom).2
            (l1.atZoom zoom).1 (l1.atZoom zoom).2).map (fun c => ((zoom, c.1, c.2) : TileId))
      else
        if (l1.atZoom zoom).2 - (l0.atZoom zoom).2 < 0 then
          getLineCrossedTilesF fuel l1 l0 zoom
        else ((lineCrossedTilesHorizontal (l0.atZoom zoom).2 (l0.atZoom zoom).1
            (l1.atZoom zoom).2 (l1.atZoom zoom).1).map (fun c => (c.2, c.1))).map
          (fun c => ((zoom, c.1, c.2) : TileId)) := rfl

/-- The direction-normalizing self-call makes the two argument orders
literally compute the same list: whichever order is given, the endpoint pair
is first brought into dominant-axis-increasing position. -/
lemma getLineCrossedTiles_swap (l0 l1 : TileCoordinate) (zoom : ℤ) :
    getLineCrossedTiles l0 l1 zoom = getLineCrossedTiles l1 l0 zoom := by
  unfold getLineCrossedTiles
  have e2a := getLineCrossedTilesF_succ 1 l0 l1 zoom
  have e2b := getLineCrossedTilesF_succ 1 l1 l0 zoom
  have e1a := getLineCrossedTilesF_succ 0 l0 l1 zoom
  have e1b := getLineCrossedTilesF_succ 0 l1 l0 zoom
  norm_num at e2a e2b e1a e1b
  rw [e2a, e2b]
  set x0 := (l0.atZoom zoom).1 with hx0
  set y0 := (l0.atZoom zoom).2 with hy0
  set x1 := (l1.atZoom zoom).1 with hx1
  set y1 := (l1.atZoom zoom).2 with hy1
  rw [abs_sub_comm x0 x1, abs_sub_comm y0 y1] at e1b ⊢
  by_cases hA : |y1 - y0| ≤ |x1 - x0|
  · rw [if_pos hA, if_pos hA]
    rcases lt_trichotomy x1 x0 with hdx | hdx | hdx
    · rw [if_pos hdx, if_neg (by linarith), e1b, if_pos hA, if_neg (by linarith)]
    · have hy : y1 = y0 := by
        have h0 : |y1 - y0| ≤ 0 := by
          have : |x1 - x0| = 0 := by rw [hdx]; simp
          linarith
        have h1 := abs_nonneg (y1 - y0)
        have h2 : |y1 - y0| = 0 := le_antisymm h0 h1
        have := abs_eq_zero.mp h2
        linarith
      rw [if_neg (by linarith), if_neg (by linarith), hdx, hy]
    · rw [if_neg (by linarith), if_pos hdx, e1a, if_pos hA, if_neg (by linarith)]
  · rw [if_neg hA, if_neg hA]
    rcases lt_trichotomy y1 y0 with hdy | hdy | hdy
    · rw [if_pos hdy, if_neg (by linarith), e1b, if_neg hA, if_neg (by linarith)]
    · exfalso
      have h0 : |y1 - y0| = 0 := by rw [hdy]; simp
      have h1 := abs_nonneg (x1 - x0)
      have := not_le.mp hA
      linarith
    · rw [if_neg (by linarith), if_pos hdy, e1a, if_neg hA, if_neg (by linarith)]

/-- **C3.** For every pair of coordinates and every zoom,
`getLineCrossedTiles l0 l1 zoom` and `getLineCrossedTiles l1 l0 zoom`
contain the same set of tile ids (the rasterization is
direction-independent; in fact the two lists are equal). -/
theorem C3_getLineCrossedTiles_direction_independent
    (l0 l1 : TileCoordinate) (zoom : ℤ) (t : TileId) :
    t ∈ getLineCrossedTiles l0 l1 zoom ↔ t ∈ getLineCrossedTiles l1 l0 zoom := by
  rw [getLineCrossedTiles_swap]

/-- **C4.** The segment from tile coordinate (0.5, 0.5) to (2.5, 3.5), both
expressed at zoom 4, rasterized at zoom 4 yields exactly the tiles
{(4,0,0),(4,0,1),(4,1,1),(4,1,2),(4,2,2),(4,2,3)}, and rasterized at zoom 3
yields exactly {(3,0,0),(3,0,1),(3,1,1)} (the lists are produced in exactly
this order). -/
theorem C4_concrete_rasterization (c0 c1 : TileCoordinate)
    (h0 : TileCoordinate.make 4 (1/2) (1/2) = some c0)
    (h1 : TileCoordinate.make 4 (5/2) (7/2) = some c1) :
    getLineCrossedTiles c0 c1 4 =
      [(4,0,0),(4,0,1),(4,1,1),(4,1,2),(4,2,2),(4,2,3)] ∧
    getLineCrossedTiles c0 c1 3 = [(3,0,0),(3,0,1),(3,1,1)] := by
  have hmk : ∀ a b : ℚ, TileCoordinate.make 4 a b = some ⟨a * 4096, b * 4096⟩ := by
    intro a b
    unfold TileCoordinate.make
    rw [if_neg (by unfold MAX_ZOOM; norm_num),
        show jsShl 1 (MAX_ZOOM - 4) = 4096 from by decide]
    norm_num
  rw [hmk] at h0 h1
  norm_num at h0 h1
  obtain rfl := h0
  obtain rfl := h1
  have hc72 : ⌈(7:ℚ)/2⌉ = 4 := by norm_num [Int.ceil_eq_iff]
  have hc12 : ⌈(1:ℚ)/2⌉ = 1 := by norm_num [Int.ceil_eq_iff]
  have hc74 : ⌈(7:ℚ)/4⌉ = 2 := by norm_num [Int.ceil_eq_iff]
  have hc14 : ⌈(1:ℚ)/4⌉ = 1 := by norm_num [Int.ceil_eq_iff]
  have ht2 : Int.toNat 2 = 2 := rfl
  constructor
  · have e := getLineCrossedTilesF_succ 1 ⟨2048, 2048⟩ ⟨10240, 14336⟩ (4:ℤ)
    norm_num [TileCoordinate.atZoom, MAX_ZOOM] at e
    unfold getLineCrossedTiles
    rw [e]
    norm_num [lineCrossedTilesHorizontal, lineCrossedTilesHorizontalGo, List.range_succ,
      List.range_zero, hc72, hc12, ht2, min_def, max_def, List.flatMap_cons, List.flatMap_nil]
  · have e := getLineCrossedTilesF_succ 1 ⟨2048, 2048⟩ ⟨10240, 14336⟩ (3:ℤ)
    have habs : |(3:ℚ)/2| = 3/2 := abs_of_pos (by norm_num)
    norm_num [TileCoordinate.atZoom, MAX_ZOOM, habs] at e
    unfold getLineCrossedTiles
    rw [e]
    norm_num [lineCrossedTilesHorizontal, lineCrossedTilesHorizontalGo, List.range_succ,
      List.range_zero, hc74, hc14, ht2, min_def, max_def, List.flatMap_cons, List.flatMap_nil]

/-- Witness for C4 at the concrete constructed coordinates. -/
theorem C4_concrete_rasterization_witness :
    getLineCrossedTiles ⟨2048, 2048⟩ ⟨10240, 14336⟩ 4 =
      [(4,0,0),(4,0,1),(4,1,1),(4,1,2),(4,2,2),(4,2,3)] ∧
    getLineCrossedTiles ⟨2048, 2048⟩ ⟨10240, 14336⟩ 3 = [(3,0,0),(3,0,1),(3,1,1)] := by
  refine C4_concrete_rasterization ⟨2048, 2048⟩ ⟨10240, 14336⟩ ?_ ?_ <;>
    · unfold TileCoordinate.make
      rw [if_neg (by unfold MAX_ZOOM; norm_num),
          show jsShl 1 (MAX_ZOOM - 4) = 4096 from by decide]
      norm_num

/-! ## Tile containment and minimal enclosing tile
(`src/util.ts`, `tileContains` / `joinTiles` / `tileContaining`)

`tileContains` compares zero-zoom footprints computed through
`TileCoordinate`; a thrown constructor error is propagated as `none`.
`joinTiles` is a `while` loop ascending the ancestor chain of its first
argument; it carries fuel `zoom+1`, which is enough for every valid tile
(the chain reaches the root tile `(0,0,0)` after at most `zoom` steps, and
the root contains every valid tile). -/

/-- `tileContains` of `util.ts`: check if `tile0` contains `tile1`. -/
def tileContains (tile0 tile1 : TileId) : Option Bool :=
  if tile1.1 < tile0.1 then some false
  else do
    let c0 ← TileCoordinate.make tile0.1 (tile0.2.1 : ℚ) (tile0.2.2 : ℚ)
    let s0 ← TileCoordinate.make tile0.1 1 1
    let c1 ← TileCoordinate.make tile1.1 (tile1.2.1 : ℚ) (tile1.2.2 : ℚ)
    let s1 ← TileCoordinate.make tile1.1 1 1
    let p0 := c0.atZoom 0
    let tile0Size := (s0.atZoom 0).1
    let p1 := c1.atZoom 0
    let tile1Size := (s1.atZoom 0).1
    some (decide (p1.1 ≥ p0.1 ∧ p1.1 + tile1Size ≤ p0.1 + tile0Size ∧
                  p1.2 ≥ p0.2 ∧ p1.2 + tile1Size ≤ p0.2 + tile0Size))

/-- The loop of `joinTiles`: grow `tile0` (replacing it by the tile covering
it at the next coarser zoom) until it contains `tile1`. -/
def joinTilesGo : ℕ → TileId → TileId → Option TileId
  | 0, tile0, tile1 => do
    let c ← tileContains tile0 tile1
    if c then some tile0 else none
  | fuel + 1, tile0, tile1 => do
    let c ← tileContains tile0 tile1
    if c then some tile0
    else do
      let tc ← TileCoordinate.make tile0.1 (tile0.2.1 : ℚ) (tile0.2.2 : ℚ)
      let p := tc.atZoom (tile0.1 - 1)
      joinTilesGo fuel (tile0.1 - 1, ⌊p.1⌋, ⌊p.2⌋) tile1

/-- `joinTiles` of `util.ts`: the smallest tile completely containing the two
given tiles. -/
def joinTiles (tile0 tile1 : TileId) : Option TileId :=
  joinTilesGo (tile0.1.toNat + 1) tile0 tile1

/-- `tileContaining` of `util.ts`: fold `joinTiles` over the list. -/
def tileContaining (tiles : List TileId) : Option TileId :=
  match tiles with
  | [] => some ((0, 0, 0) : TileId)
  | t :: rest => rest.foldlM joinTiles t

/-- A valid tile id: `0 ≤ zoom ≤ 15` and coordinates in `[0, 2^zoom)`. -/
def ValidTile (t : TileId) : Prop :=
  0 ≤ t.1 ∧ t.1 ≤ 15 ∧ 0 ≤ t.2.1 ∧ t.2.1 < 2 ^ t.1.toNat ∧ 0 ≤ t.2.2 ∧ t.2.2 < 2 ^ t.1.toNat

instance (t : TileId) : Decidable (ValidTile t) := by unfold ValidTile; infer_instance

/-- Arithmetic characterization of footprint containment: `a` contains `b`
iff `a` is the ancestor of `b` at zoom `a.1` (coordinates shifted down by the
zoom difference). -/
def ContainsSpec (a b : TileId) : Prop :=
  a.1 ≤ b.1 ∧ a.2.1 = b.2.1 / 2 ^ (b.1 - a.1).toNat ∧ a.2.2 = b.2.2 / 2 ^ (b.1 - a.1).toNat

instance (a b : TileId) : Decidable (ContainsSpec a b) := by unfold ContainsSpec; infer_instance

lemma TileCoordinate.make_eq (zoom : ℤ) (h0 : -14 ≤ zoom) (h1 : zoom ≤ 16) (x y : ℚ) :
    TileCoordinate.make zoom x y =
      some ⟨x * 2 ^ (16 - zoom).toNat, y * 2 ^ (16 - zoom).toNat⟩ := by
  unfold TileCoordinate.make
  rw [if_neg (by unfold MAX_ZOOM; omega)]
  have hshl : jsShl 1 (MAX_ZOOM - zoom) = 2 ^ ((16:ℤ) - zoom).toNat := by
    unfold MAX_ZOOM
    exact jsShl_one (16 - zoom) (by omega) (by omega)
  rw [hshl]
  push_cast
  rfl

lemma pow_toNat_zpow (e : ℤ) (he : 0 ≤ e) : ((2:ℚ) ^ e.toNat) = (2:ℚ) ^ e := by
  rw [← zpow_natCast]
  congr 1
  omega

/-- Scaled footprint of a constructed tile coordinate, at zoom `w`. -/
lemma make_atZoom (zoom : ℤ) (h0 : 0 ≤ zoom) (h1 : zoom ≤ 16) (x y : ℚ) (w : ℤ) (tc : TileCoordinate)
    (h : TileCoordinate.make zoom x y = some tc) :
    tc.atZoom w = (x * (2:ℚ) ^ (w - zoom), y * (2:ℚ) ^ (w - zoom)) := by
  rw [TileCoordinate.make_eq zoom (by omega) h1] at h
  obtain rfl := (Option.some.injEq _ _).mp h
  unfold TileCoordinate.atZoom MAX_ZOOM
  have hp : ((2:ℚ) ^ ((16:ℤ) - zoom).toNat) = (2:ℚ) ^ ((16:ℤ) - zoom) :=
    pow_toNat_zpow _ (by omega)
  have hm : ∀ u : ℚ, u * 2 ^ ((16:ℤ) - zoom).toNat * (2:ℚ) ^ (w - 16) = u * 2 ^ (w - zoom) := by
    intro u
    rw [hp, mul_assoc, ← zpow_add₀ (by norm_num : (2:ℚ) ≠ 0)]
    congr 2
    omega
  rw [hm, hm]

lemma ediv_char (xa xb : ℤ) (d : ℕ) :
    (xa * 2 ^ d ≤ xb ∧ xb + 1 ≤ (xa + 1) * 2 ^ d) ↔ xa = xb / 2 ^ d := by
  have hp : (0:ℤ) < 2 ^ d := by positivity
  constructor
  · rintro ⟨h1, h2⟩
    have ha : xa ≤ xb / 2 ^ d := (Int.le_ediv_iff_mul_le hp).mpr h1
    have hb : xb / 2 ^ d < xa + 1 := (Int.ediv_lt_iff_lt_mul hp).mpr (by omega)
    omega
  · rintro rfl
    refine ⟨Int.ediv_mul_le xb hp.ne', ?_⟩
    have := Int.lt_ediv_add_one_mul_self xb hp
    omega

/-- One axis of `tileContains`' footprint test, converted from the rational
zero-zoom comparison to the integer shifted-coordinate characterization. -/
lemma axis_iff (az bz xa xb : ℤ) (_h0 : 0 ≤ az) (hab : az ≤ bz) :
    ((xb:ℚ) * (2:ℚ) ^ ((0:ℤ) - bz) ≥ (xa:ℚ) * (2:ℚ) ^ ((0:ℤ) - az) ∧
     (xb:ℚ) * (2:ℚ) ^ ((0:ℤ) - bz) + (1:ℚ) * (2:ℚ) ^ ((0:ℤ) - bz) ≤
       (xa:ℚ) * (2:ℚ) ^ ((0:ℤ) - az) + (1:ℚ) * (2:ℚ) ^ ((0:ℤ) - az)) ↔
    xa = xb / 2 ^ (bz - az).toNat := by
  have h2ne : (2:ℚ) ≠ 0 := by norm_num
  have hbzpos : (0:ℚ) < (2:ℚ) ^ bz := zpow_pos (by norm_num) bz
  have hcast : ((2:ℚ) ^ (bz - az).toNat) = (2:ℚ) ^ (bz - az) := pow_toNat_zpow _ (by omega)
  have l1 : (xa:ℚ) * (2:ℚ) ^ ((0:ℤ) - az) * (2:ℚ) ^ bz
      = ((xa * 2 ^ (bz - az).toNat : ℤ) : ℚ) := by
    push_cast
    rw [hcast, mul_assoc, ← zpow_add₀ h2ne]
    congr 2
    omega
  have l2 : (xb:ℚ) * (2:ℚ) ^ ((0:ℤ) - bz) * (2:ℚ) ^ bz = (xb:ℚ) := by
    rw [mul_assoc, ← zpow_add₀ h2ne, show (0:ℤ) - bz + bz = 0 from by omega, zpow_zero, mul_one]
  have l3 : ((xb:ℚ) * (2:ℚ) ^ ((0:ℤ) - bz) + (1:ℚ) * (2:ℚ) ^ ((0:ℤ) - bz)) * (2:ℚ) ^ bz
      = ((xb + 1 : ℤ) : ℚ) := by
    push_cast
    rw [add_mul, mul_assoc, mul_assoc, ← zpow_add₀ h2ne,
        show (0:ℤ) - bz + bz = 0 from by omega, zpow_zero]
    ring
  have l4 : ((xa:ℚ) * (2:ℚ) ^ ((0:ℤ) - az) + (1:ℚ) * (2:ℚ) ^ ((0:ℤ) - az)) * (2:ℚ) ^ bz
      = (((xa + 1) * 2 ^ (bz - az).toNat : ℤ) : ℚ) := by
    push_cast
    rw [hcast, add_mul, mul_assoc, mul_assoc, ← zpow_add₀ h2ne,
        show (0:ℤ) - az + bz = bz - az from by omega]
    ring
  constructor
  · rintro ⟨h1, h2⟩
    apply (ediv_char xa xb (bz - az).toNat).mp
    constructor
    · have h := mul_le_mul_of_nonneg_right h1 hbzpos.le
      rw [l1, l2] at h
      exact_mod_cast h
    · have h := mul_le_mul_of_nonneg_right h2 hbzpos.le
      rw [l3, l4] at h
      exact_mod_cast h
  · intro h
    obtain ⟨h1, h2⟩ := (ediv_char xa xb (bz - az).toNat).mpr h
    constructor
    · have h1q : ((xa * 2 ^ (bz - az).toNat : ℤ) : ℚ) ≤ (xb:ℚ) := by exact_mod_cast h1
      rw [← l1, ← l2] at h1q
      exact le_of_mul_le_mul_right h1q hbzpos
    · have h2q : ((xb + 1 : ℤ) : ℚ) ≤ (((xa + 1) * 2 ^ (bz - az).toNat : ℤ) : ℚ) := by
        exact_mod_cast h2
      rw [← l3, ← l4] at h2q
      exact le_of_mul_le_mul_right h2q hbzpos

/-- `tileContains` computed on any tiles with zooms in `[0, 16]` equals the
decidable arithmetic containment test. -/
lemma tileContains_eq (a b : TileId) (ha0 : 0 ≤ a.1) (ha16 : a.1 ≤ 16)
    (hb0 : 0 ≤ b.1) (hb16 : b.1 ≤ 16) :
    tileContains a b = some (decide (ContainsSpec a b)) := by
  unfold tileContains
  by_cases hlt : b.1 < a.1
  · rw [if_pos hlt]
    have hns : ¬ ContainsSpec a b := fun h => absurd h.1 (by omega)
    simp [hns]
  · rw [if_neg hlt]
    have hc0 := TileCoordinate.make_eq a.1 (by omega) ha16 (a.2.1 : ℚ) (a.2.2 : ℚ)
    have hs0 := TileCoordinate.make_eq a.1 (by omega) ha16 1 1
    have hc1 := TileCoordinate.make_eq b.1 (by omega) hb16 (b.2.1 : ℚ) (b.2.2 : ℚ)
    have hs1 := TileCoordinate.make_eq b.1 (by omega) hb16 1 1
    have pa := make_atZoom a.1 ha0 ha16 (a.2.1 : ℚ) (a.2.2 : ℚ) 0 _ hc0
    have psa := make_atZoom a.1 ha0 ha16 1 1 0 _ hs0
    have pb := make_atZoom b.1 hb0 hb16 (b.2.1 : ℚ) (b.2.2 : ℚ) 0 _ hc1
    have psb := make_atZoom b.1 hb0 hb16 1 1 0 _ hs1
    rw [hc0, hs0, hc1, hs1]
    simp only [Option.bind_eq_bind, Option.some_bind]
    rw [pa, psa, pb, psb]
    congr 1
    rw [decide_eq_decide]
    unfold ContainsSpec
    have hx := axis_iff a.1 b.1 a.2.1 b.2.1 ha0 (by omega)
    have hy := axis_iff a.1 b.1 a.2.2 b.2.2 ha0 (by omega)
    constructor
    · rintro ⟨h1, h2, h3, h4⟩
      exact ⟨by omega, hx.mp ⟨h1, h2⟩, hy.mp ⟨h3, h4⟩⟩
    · rintro ⟨h1, h2, h3⟩
      obtain ⟨q1, q2⟩ := hx.mpr h2
      obtain ⟨q3, q4⟩ := hy.mpr h3
      exact ⟨q1, q2, q3, q4⟩

/-- The ancestor of tile `t` at the coarser zoom `z`. -/
def ancAt (t : TileId) (z : ℤ) : TileId :=
  (z, t.2.1 / 2 ^ (t.1 - z).toNat, t.2.2 / 2 ^ (t.1 - z).toNat)

lemma containsSpec_refl (t : TileId) : ContainsSpec t t := by
  unfold ContainsSpec
  simp

lemma ancAt_self (t : TileId) : ancAt t t.1 = t := by
  unfold ancAt
  simp

lemma ancAt_contains (t : TileId) (z : ℤ) (hz : z ≤ t.1) : ContainsSpec (ancAt t z) t :=
  ⟨hz, rfl, rfl⟩

lemma int_ediv_ediv (a b c : ℤ) (hb : 0 < b) (hc : 0 < c) : a / b / c = a / (b * c) := by
  apply le_antisymm
  · rw [Int.le_ediv_iff_mul_le (mul_pos hb hc)]
    have h1 : a / b / c * c ≤ a / b := Int.ediv_mul_le _ hc.ne'
    have h2 : a / b * b ≤ a := Int.ediv_mul_le _ hb.ne'
    calc a / b / c * (b * c) = a / b / c * c * b := by ring
      _ ≤ a / b * b := mul_le_mul_of_nonneg_right h1 hb.le
      _ ≤ a := h2
  · rw [Int.le_ediv_iff_mul_le hc, Int.le_ediv_iff_mul_le hb]
    calc a / (b * c) * c * b = a / (b * c) * (b * c) := by ring
      _ ≤ a := Int.ediv_mul_le _ (mul_pos hb hc).ne'

lemma ancAt_ancAt (t : TileId) (z w : ℤ) (hz : z ≤ w) (hw : w ≤ t.1) :
    ancAt (ancAt t w) z = ancAt t z := by
  unfold ancAt
  have hstep : ∀ u : ℤ, u / 2 ^ (t.1 - w).toNat / 2 ^ (w - z).toNat = u / 2 ^ (t.1 - z).toNat := by
    intro u
    rw [int_ediv_ediv u _ _ (by positivity) (by positivity), ← pow_add]
    congr 2
    omega
  simp only [hstep]

lemma containsSpec_trans (a b c : TileId) (hab : ContainsSpec a b) (hbc : ContainsSpec b c) :
    ContainsSpec a c := by
  obtain ⟨h1, h2, h3⟩ := hab
  obtain ⟨h4, h5, h6⟩ := hbc
  refine ⟨by omega, ?_, ?_⟩
  · rw [h2, h5, int_ediv_ediv _ _ _ (by positivity) (by positivity), ← pow_add]
    congr 2
    omega
  · rw [h3, h6, int_ediv_ediv _ _ _ (by positivity) (by positivity), ← pow_add]
    congr 2
    omega

lemma validTile_ancAt (t : TileId) (ht : ValidTile t) (z : ℤ) (h0 : 0 ≤ z) (hz : z ≤ t.1) :
    ValidTile (ancAt t z) := by
  obtain ⟨ht0, ht15, hx0, hx1, hy0, hy1⟩ := ht
  have hsplit : (2:ℤ) ^ t.1.toNat = 2 ^ z.toNat * 2 ^ (t.1 - z).toNat := by
    rw [← pow_add]
    congr 1
    omega
  unfold ValidTile ancAt
  dsimp only
  refine ⟨h0, by omega, Int.ediv_nonneg hx0 (by positivity), ?_,
    Int.ediv_nonneg hy0 (by positivity), ?_⟩
  · rw [Int.ediv_lt_iff_lt_mul (by positivity)]
    rw [hsplit] at hx1
    omega
  · rw [Int.ediv_lt_iff_lt_mul (by positivity)]
    rw [hsplit] at hy1
    omega

lemma root_contains (t : TileId) (ht : ValidTile t) : ContainsSpec ((0,0,0) : TileId) t := by
  obtain ⟨ht0, ht15, hx0, hx1, hy0, hy1⟩ := ht
  refine ⟨ht0, ?_, ?_⟩ <;>
    · show (0:ℤ) = _ / 2 ^ (t.1 - 0).toNat
      rw [eq_comm, Int.ediv_eq_zero_of_lt (by omega)]
      have : (t.1 - 0).toNat = t.1.toNat := by omega
      rw [this]
      omega

lemma valid_zoom0_eq_root (a : TileId) (ha : ValidTile a) (h : a.1 = 0) :
    a = ((0,0,0) : TileId) := by
  obtain ⟨h0, h15, hx0, hx1, hy0, hy1⟩ := ha
  rw [h] at hx1 hy1
  norm_num at hx1 hy1
  obtain ⟨az, ax, ay⟩ := a
  simp_all
  omega

lemma floor_mul_half (n : ℤ) : ⌊(n:ℚ) * (2:ℚ) ^ ((-1 : ℤ))⌋ = n / 2 := by
  have h : (n:ℚ) * (2:ℚ) ^ ((-1 : ℤ)) = (n:ℚ) / ((2:ℕ) : ℚ) := by
    rw [zpow_neg, zpow_one]
    push_cast
    ring
  rw [h, Rat.floor_intCast_div_natCast]
  norm_num

lemma ancAt_parent (a : TileId) : ancAt a (a.1 - 1) = ((a.1 - 1, a.2.1 / 2, a.2.2 / 2) : TileId) := by
  unfold ancAt
  have h : (a.1 - (a.1 - 1)).toNat = 1 := by omega
  rw [h, pow_one]

lemma joinTilesGo_zero_eq (a b : TileId) (ha0 : 0 ≤ a.1) (ha16 : a.1 ≤ 16)
    (hb0 : 0 ≤ b.1) (hb16 : b.1 ≤ 16) :
    joinTilesGo 0 a b = (if ContainsSpec a b then some a else none) := by
  unfold joinTilesGo
  rw [tileContains_eq a b ha0 ha16 hb0 hb16]
  simp only [Option.bind_eq_bind, Option.some_bind]
  by_cases h : ContainsSpec a b
  · simp [h]
  · simp [h]

lemma joinTilesGo_succ_eq (f : ℕ) (a b : TileId) (ha0 : 0 ≤ a.1) (ha16 : a.1 ≤ 16)
    (hb0 : 0 ≤ b.1) (hb16 : b.1 ≤ 16) :
    joinTilesGo (f + 1) a b =
      (if ContainsSpec a b then some a else joinTilesGo f (ancAt a (a.1 - 1)) b) := by
  conv_lhs => rw [joinTilesGo]
  rw [tileContains_eq a b ha0 ha16 hb0 hb16]
  simp only [Option.bind_eq_bind, Option.some_bind]
  by_cases h : ContainsSpec a b
  · simp [h]
  · rw [if_neg h]
    have hd : decide (ContainsSpec a b) = false := decide_eq_false_iff_not.mpr h
    rw [TileCoordinate.make_eq a.1 (by omega) ha16, hd]
    simp only [Bool.false_eq_true, if_false, Option.some_bind]
    have hz := make_atZoom a.1 ha0 ha16 (a.2.1 : ℚ) (a.2.2 : ℚ) (a.1 - 1) _
      (TileCoordinate.make_eq a.1 (by omega) ha16 _ _)
    rw [hz]
    have he : a.1 - 1 - a.1 = -1 := by omega
    rw [he]
    dsimp only
    rw [floor_mul_half, floor_mul_half, ancAt_parent]

lemma containsSpec_antisymm_zoom (T a : TileId) (h : ContainsSpec T a) (hz : T.1 = a.1) :
    T = a := by
  obtain ⟨h1, h2, h3⟩ := h
  have hd : (a.1 - T.1).toNat = 0 := by omega
  rw [hd, pow_zero, Int.ediv_one] at h2 h3
  obtain ⟨tz, tx, ty⟩ := T
  obtain ⟨az, ax, ay⟩ := a
  simp_all

/-- Full correctness of the `joinTiles` loop: with fuel at least the zoom of
`a`, it returns the least common ancestor of `a` and `b` — an ancestor of
`a`, valid, containing both tiles, and contained in every valid tile that
contains both. -/
lemma joinTilesGo_spec (fuel : ℕ) : ∀ (a b : TileId), ValidTile a → ValidTile b →
    a.1.toNat ≤ fuel →
    ∃ R, joinTilesGo fuel a b = some R ∧ ValidTile R ∧
      (∃ z, 0 ≤ z ∧ z ≤ a.1 ∧ R = ancAt a z) ∧
      ContainsSpec R a ∧ ContainsSpec R b ∧
      (∀ T, ValidTile T → ContainsSpec T a → ContainsSpec T b → ContainsSpec T R) := by
  induction fuel with
  | zero =>
    intro a b ha hb hfuel
    have ha0 : a.1 = 0 := by have := ha.1; omega
    have hroot : a = ((0,0,0) : TileId) := valid_zoom0_eq_root a ha ha0
    have hcont : ContainsSpec a b := by rw [hroot]; exact root_contains b hb
    refine ⟨a, ?_, ha, ⟨a.1, by omega, le_refl _, (ancAt_self a).symm⟩,
      containsSpec_refl a, hcont, fun T _ hTa _ => hTa⟩
    rw [joinTilesGo_zero_eq a b ha.1 (by have := ha.2.1; omega) hb.1 (by have := hb.2.1; omega),
      if_pos hcont]
  | succ f ih =>
    intro a b ha hb hfuel
    by_cases hc : ContainsSpec a b
    · refine ⟨a, ?_, ha, ⟨a.1, ha.1, le_refl _, (ancAt_self a).symm⟩,
        containsSpec_refl a, hc, fun T _ hTa _ => hTa⟩
      rw [joinTilesGo_succ_eq f a b ha.1 (by have := ha.2.1; omega) hb.1
        (by have := hb.2.1; omega), if_pos hc]
    · have ha1 : 1 ≤ a.1 := by
        by_contra hlt
        have h0 : a.1 = 0 := by have := ha.1; omega
        exact hc (by rw [valid_zoom0_eq_root a ha h0]; exact root_contains b hb)
      have hva' : ValidTile (ancAt a (a.1 - 1)) :=
        validTile_ancAt a ha (a.1 - 1) (by omega) (by omega)
      have ha'z : (ancAt a (a.1 - 1)).1 = a.1 - 1 := rfl
      obtain ⟨R, hR, hvR, ⟨z, hz0, hz1, hzR⟩, hRa', hRb, hmin⟩ :=
        ih (ancAt a (a.1 - 1)) b hva' hb (by rw [ha'z]; omega)
      rw [ha'z] at hz1
      have hpar : ContainsSpec (ancAt a (a.1 - 1)) a := ancAt_contains a (a.1 - 1) (by omega)
      refine ⟨R, ?_, hvR, ⟨z, hz0, by omega, ?_⟩,
        containsSpec_trans R (ancAt a (a.1 - 1)) a hRa' hpar, hRb, ?_⟩
      · rw [joinTilesGo_succ_eq f a b ha.1 (by have := ha.2.1; omega) hb.1
          (by have := hb.2.1; omega), if_neg hc]
        exact hR
      · rw [hzR]
        exact ancAt_ancAt a z (a.1 - 1) hz1 (by omega)
      · intro T hT hTa hTb
        have hTz : T.1 ≤ a.1 := hTa.1
        have hTne : T.1 ≠ a.1 := by
          intro he
          exact hc ((containsSpec_antisymm_zoom T a hTa he) ▸ hTb)
        have hTa' : ContainsSpec T (ancAt a (a.1 - 1)) := by
          obtain ⟨h1, h2, h3⟩ := hTa
          refine ⟨by rw [ha'z]; omega, ?_, ?_⟩
          · show T.2.1 = (ancAt a (a.1 - 1)).2.1 / 2 ^ ((ancAt a (a.1 - 1)).1 - T.1).toNat
            unfold ancAt
            dsimp only
            rw [int_ediv_ediv _ _ _ (by positivity) (by positivity), ← pow_add, h2]
            congr 2
            omega
          · show T.2.2 = (ancAt a (a.1 - 1)).2.2 / 2 ^ ((ancAt a (a.1 - 1)).1 - T.1).toNat
            unfold ancAt
            dsimp only
            rw [int_ediv_ediv _ _ _ (by positivity) (by positivity), ← pow_add, h3]
            congr 2
            omega
        exact hmin T hT hTa' hTb

lemma joinTiles_spec (a b : TileId) (ha : ValidTile a) (hb : ValidTile b) :
    ∃ R, joinTiles a b = some R ∧ ValidTile R ∧ ContainsSpec R a ∧ ContainsSpec R b ∧
      (∀ T, ValidTile T → ContainsSpec T a → ContainsSpec T b → ContainsSpec T R) := by
  obtain ⟨R, hR, hvR, _, h1, h2, h3⟩ :=
    joinTilesGo_spec (a.1.toNat + 1) a b ha hb (by omega)
  exact ⟨R, hR, hvR, h1, h2, h3⟩

lemma foldlM_joinTiles_spec (rest : List TileId) : ∀ (acc : TileId), ValidTile acc →
    (∀ t ∈ rest, ValidTile t) →
    ∃ R, rest.foldlM joinTiles acc = some R ∧ ValidTile R ∧ ContainsSpec R acc ∧
      (∀ t ∈ rest, ContainsSpec R t) ∧
      (∀ T, ValidTile T → ContainsSpec T acc → (∀ t ∈ rest, ContainsSpec T t) →
        ContainsSpec T R) := by
  induction rest with
  | nil =>
    intro acc hacc _
    exact ⟨acc, rfl, hacc, containsSpec_refl acc, by simp, fun T _ h _ => h⟩
  | cons t rest ih =>
    intro acc hacc hv
    obtain ⟨J, hJ, hvJ, hJa, hJt, hJmin⟩ := joinTiles_spec acc t hacc (hv t (by simp))
    obtain ⟨R, hR, hvR, hRJ, hRrest, hRmin⟩ := ih J hvJ (fun u hu => hv u (by simp [hu]))
    refine ⟨R, ?_, hvR, containsSpec_trans R J acc hRJ hJa, ?_, ?_⟩
    · rw [List.foldlM_cons, hJ]
      simpa using hR
    · intro u hu
      rcases List.mem_cons.mp hu with h | h
      · exact h ▸ containsSpec_trans R J t hRJ hJt
      · exact hRrest u h
    · intro T hT hTacc hTall
      exact hRmin T hT (hJmin T hT hTacc (hTall t (by simp)))
        (fun u hu => hTall u (by simp [hu]))

lemma tileContains_true_of (a b : TileId) (ha : ValidTile a) (hb : ValidTile b)
    (h : ContainsSpec a b) : tileContains a b = some true := by
  rw [tileContains_eq a b ha.1 (by have := ha.2.1; omega) hb.1 (by have := hb.2.1; omega)]
  simp [h]

lemma containsSpec_of_tileContains (a b : TileId) (ha : ValidTile a) (hb : ValidTile b)
    (h : tileContains a b = some true) : ContainsSpec a b := by
  rw [tileContains_eq a b ha.1 (by have := ha.2.1; omega) hb.1 (by have := hb.2.1; omega)] at h
  simpa using h

lemma joinTiles_ex1 : joinTiles ((2,1,2) : TileId) (3,2,4) = some ((2,1,2) : TileId) := by
  have e0 : joinTiles ((2,1,2) : TileId) (3,2,4) = joinTilesGo 3 ((2,1,2) : TileId) (3,2,4) := rfl
  have e1 := joinTilesGo_succ_eq 2 ((2,1,2) : TileId) (3,2,4)
    (by norm_num) (by norm_num) (by norm_num) (by norm_num)
  norm_num at e1
  rw [e0, e1, if_pos (by decide)]

lemma joinTiles_ex2 : joinTiles ((3,4,2) : TileId) (3,6,1) = some ((1,1,0) : TileId) := by
  have e0 : joinTiles ((3,4,2) : TileId) (3,6,1) = joinTilesGo 4 ((3,4,2) : TileId) (3,6,1) := rfl
  have e1 := joinTilesGo_succ_eq 3 ((3,4,2) : TileId) (3,6,1)
    (by norm_num) (by norm_num) (by norm_num) (by norm_num)
  norm_num at e1
  rw [e0, e1, if_neg (by decide),
    show ancAt ((3,4,2) : TileId) 2 = ((2,2,1) : TileId) from by decide]
  have e2 := joinTilesGo_succ_eq 2 ((2,2,1) : TileId) (3,6,1)
    (by norm_num) (by norm_num) (by norm_num) (by norm_num)
  norm_num at e2
  rw [e2, if_neg (by decide),
    show ancAt ((2,2,1) : TileId) 1 = ((1,1,0) : TileId) from by decide]
  have e3 := joinTilesGo_succ_eq 1 ((1,1,0) : TileId) (3,6,1)
    (by norm_num) (by norm_num) (by norm_num) (by norm_num)
  norm_num at e3
  rw [e3, if_pos (by decide)]

lemma joinTiles_ex3 : joinTiles ((1,1,0) : TileId) (2,3,1) = some ((1,1,0) : TileId) := by
  have e0 : joinTiles ((1,1,0) : TileId) (2,3,1) = joinTilesGo 2 ((1,1,0) : TileId) (2,3,1) := rfl
  have e1 := joinTilesGo_succ_eq 1 ((1,1,0) : TileId) (2,3,1)
    (by norm_num) (by norm_num) (by norm_num) (by norm_num)
  norm_num at e1
  rw [e0, e1, if_pos (by decide)]

lemma joinTiles_ex4 : joinTiles ((1,1,0) : TileId) (3,0,7) = some ((0,0,0) : TileId) := by
  have e0 : joinTiles ((1,1,0) : TileId) (3,0,7) = joinTilesGo 2 ((1,1,0) : TileId) (3,0,7) := rfl
  have e1 := joinTilesGo_succ_eq 1 ((1,1,0) : TileId) (3,0,7)
    (by norm_num) (by norm_num) (by norm_num) (by norm_num)
  norm_num at e1
  rw [e0, e1, if_neg (by decide),
    show ancAt ((1,1,0) : TileId) 0 = ((0,0,0) : TileId) from by decide]
  have e2 := joinTilesGo_succ_eq 0 ((0,0,0) : TileId) (3,0,7)
    (by norm_num) (by norm_num) (by norm_num) (by norm_num)
  norm_num at e2
  rw [show ((0,0,0) : TileId) = (0 : TileId) from rfl, e2, if_pos (by decide)]

/-- **C5.** For every non-empty list of valid tile ids, `tileContaining`
returns the smallest tile (the containing tile of maximal zoom) whose
zero-zoom footprint contains every tile of the list: the result contains
every member, and any valid tile containing every member contains the result
(hence has a coarser-or-equal zoom).  In particular
`tileContaining [(2,1,2),(3,2,4)] = (2,1,2)` and
`tileContaining [(3,4,2),(3,6,1),(2,3,1),(3,0,7)] = (0,0,0)`. -/
theorem C5_tileContaining_minimal_enclosing :
    (∀ (ts : List TileId), ts ≠ [] → (∀ t ∈ ts, ValidTile t) →
      ∃ R, tileContaining ts = some R ∧ ValidTile R ∧
        (∀ t ∈ ts, tileContains R t = some true) ∧
        (∀ T, ValidTile T → (∀ t ∈ ts, tileContains T t = some true) →
          tileContains T R = some true ∧ T.1 ≤ R.1)) ∧
    tileContaining [((2,1,2) : TileId), (3,2,4)] = some ((2,1,2) : TileId) ∧
    tileContaining [((3,4,2) : TileId), (3,6,1), (2,3,1), (3,0,7)] =
      some ((0,0,0) : TileId) := by
  refine ⟨?_, ?_, ?_⟩
  · rintro ts hne hv
    obtain ⟨t, rest, rfl⟩ : ∃ t rest, ts = t :: rest := by
      cases ts with
      | nil => exact absurd rfl hne
      | cons t rest => exact ⟨t, rest, rfl⟩
    obtain ⟨R, hR, hvR, hRacc, hRrest, hRmin⟩ :=
      foldlM_joinTiles_spec rest t (hv t (by simp)) (fun u hu => hv u (by simp [hu]))
    refine ⟨R, by unfold tileContaining; exact hR, hvR, ?_, ?_⟩
    · intro u hu
      rcases List.mem_cons.mp hu with h | h
      · exact tileContains_true_of R u hvR (hv u hu) (h ▸ hRacc)
      · exact tileContains_true_of R u hvR (hv u hu) (hRrest u h)
    · intro T hT hTall
      have hTR : ContainsSpec T R := hRmin T hT
        (containsSpec_of_tileContains T t hT (hv t (by simp)) (hTall t (by simp)))
        (fun u hu => containsSpec_of_tileContains T u hT (hv u (by simp [hu]))
          (hTall u (by simp [hu])))
      exact ⟨tileContains_true_of T R hT hvR hTR, hTR.1⟩
  · show List.foldlM joinTiles ((2,1,2) : TileId) [((3,2,4) : TileId)] = some ((2,1,2) : TileId)
    rw [List.foldlM_cons, joinTiles_ex1]
    simp
  · show List.foldlM joinTiles ((3,4,2) : TileId)
      [((3,6,1) : TileId), (2,3,1), (3,0,7)] = some ((0,0,0) : TileId)
    rw [List.foldlM_cons, joinTiles_ex2]
    simp only [Option.bind_eq_bind, Option.some_bind]
    rw [List.foldlM_cons, joinTiles_ex3]
    simp only [Option.bind_eq_bind, Option.some_bind]
    rw [List.foldlM_cons, joinTiles_ex4]
    simp

/-- Witness for C5 at a concrete list, discharging the hypotheses. -/
theorem C5_tileContaining_minimal_enclosing_witness :
    ∃ R, tileContaining [((2,1,2) : TileId), (3,2,4)] = some R ∧ ValidTile R ∧
      (∀ t ∈ [((2,1,2) : TileId), (3,2,4)], tileContains R t = some true) ∧
      (∀ T, ValidTile T →
        (∀ t ∈ [((2,1,2) : TileId), (3,2,4)], tileContains T t = some true) →
        tileContains T R = some true ∧ T.1 ≤ R.1) :=
  C5_tileContaining_minimal_enclosing.1 [((2,1,2) : TileId), (3,2,4)]
    (by simp) (by decide)

/-! ## Feature set and route finder
(`src/util.ts`: `closestOnLine`, `distanceToLine`, `FeatureEntrySet`,
`routeLengthMiles`; `src/index.ts`: class `Path`)

`Math.sqrt` (inside `Path.dist` and `closestOnLine`) and the haversine
point distance `coordDistMiles` are irrational, so they are abstracted as
parameters `sq : ℚ → ℚ` (applied to the *squared* length) and
`dm : Point → Point → ℚ`; the theorems hold for every interpretation.
A JS out-of-bounds array read yields `undefined`; `getP` returns a default
point instead, which is provably unobservable in any *returned* value (the
states that read out of bounds never terminate, see `routeWalk`).
`Except Abort` models abnormal outcomes: `.spin` an infinite loop,
`.jsError` a thrown TypeError. -/

abbrev Point : Type := ℚ × ℚ

/-- JS `1e100`, the sentinel distance. -/
def bigSentinel : ℚ := 10 ^ 100

/-- distance threshold for trails to be considered intersecting (2e-4). -/
def TRAIL_INTERSECTION_THRESH : ℚ := 2 / 10 ^ 4

/-- number of intersections to consider when route finding. -/
def ROUTE_FINDING_DEPTH : ℕ := 8

structure TrailEntry where
  id : ℤ
  tile : ℤ
  name : String
  route : List Point
  length : ℚ

structure SiteEntry where
  id : ℤ
  tile : ℤ
  name : String
  site_type : String
  location : Point

/-- The tagged union `FeatureEntry = TrailEntry | SiteEntry`. -/
inductive FeatureEntry where
  | trail (t : TrailEntry)
  | site (s : SiteEntry)

def FeatureEntry.id : FeatureEntry → ℤ
  | .trail t => t.id
  | .site s => s.id

/-- `FeatureEntrySet`: features bucketed by tile plus the visible subset. -/
structure FeatureEntrySet where
  features : List (ℤ × List FeatureEntry)
  visibleFeatures : List FeatureEntry

/-- `closestOnLine` of `util.ts`: point on the segment closest to `point`,
with its distance (`sq` stands for `Math.sqrt`). -/
def closestOnLine (sq : ℚ → ℚ) (point endpoint1 endpoint2 : Point) : Point × ℚ :=
  let A := point.1 - endpoint1.1
  let B := point.2 - endpoint1.2
  let C := endpoint2.1 - endpoint1.1
  let D := endpoint2.2 - endpoint1.2
  let dot := A * C + B * D
  let len_sq := C * C + D * D
  let param : ℚ := if len_sq ≠ 0 then dot / len_sq else -1
  let xx := if param < 0 then endpoint1.1
    else if param > 1 then endpoint2.1 else endpoint1.1 + param * C
  let yy := if param < 0 then endpoint1.2
    else if param > 1 then endpoint2.2 else endpoint1.2 + param * D
  let dx := point.1 - xx
  let dy := point.2 - yy
  ((xx, yy), sq (dx * dx + dy * dy))

/-- `distanceToLine` of `util.ts`. -/
def distanceToLine (sq : ℚ → ℚ) (point endpoint1 endpoint2 : Point) : ℚ :=
  (closestOnLine sq point endpoint1 endpoint2).2

/-- The body of `closestFeature`'s `forEach` callback: sites are skipped
(`TODO: other features` in the source), excluded trails are skipped, and a
trail closer than the accumulator replaces it. -/
def closestFeatureStep (sq : ℚ → ℚ) (coord : Point) (excludeId : Option ℤ)
    (acc : Option FeatureEntry × ℚ) (f : FeatureEntry) : Option FeatureEntry × ℚ :=
  match f with
  | .trail t =>
    if excludeId ≠ some t.id then
      let minDist := (t.route.zip t.route.tail).foldl
        (fun m p => min m (distanceToLine sq coord p.1 p.2)) bigSentinel
      if minDist < acc.2 then (some (.trail t), minDist) else acc
    else acc
  | .site _ => acc

/-- `FeatureEntrySet.closestFeature`: the closest visible trail feature and
its distance; `(undefined, 1e100)` when nothing qualifies. -/
def FeatureEntrySet.closestFeature (sq : ℚ → ℚ) (s : FeatureEntrySet)
    (coord : Point) (excludeId : Option ℤ) : Option FeatureEntry × ℚ :=
  s.visibleFeatures.foldl (closestFeatureStep sq coord excludeId) (none, bigSentinel)

/-- `FeatureEntrySet.closestTrail`: the JS body is
`return this.closestFeature(coord, excludeId) as [TrailEntry, number]` —
an unchecked cast, i.e. the identity. -/
def FeatureEntrySet.closestTrail (sq : ℚ → ℚ) (s : FeatureEntrySet)
    (coord : Point) (excludeId : Option ℤ) : Option FeatureEntry × ℚ :=
  s.closestFeature sq coord excludeId

/-- `FeatureEntrySet.findTrail`: linear scan of the visible features for a
trail with the given id (`undefined` — `none` — if absent). -/
def FeatureEntrySet.findTrail (s : FeatureEntrySet) (id : ℤ) : Option TrailEntry :=
  s.visibleFeatures.findSome? (fun f => match f with
    | .trail t => if t.id = id then some t else none
    | .site _ => none)

/-- `routeLengthMiles` of `util.ts`, over the abstract point distance. -/
def routeLengthMiles (dm : Point → Point → ℚ) (route : List Point) : ℚ :=
  (route.zip route.tail).foldl (fun len p => len + dm p.1 p.2) 0

structure TrailPoint where
  trail : TrailEntry
  pt : Point

structure Intersection where
  point : Point
  trail0Id : ℤ
  trail1Id : ℤ

/-- Abnormal outcomes of the JS route finder. -/
inductive Abort where
  | spin
  | jsError
  deriving DecidableEq

namespace Path

/-- `Path.dist` (`sq` models `Math.sqrt`). -/
def dist (sq : ℚ → ℚ) (p0 p1 : Point) : ℚ :=
  sq ((p0.1 - p1.1) ^ 2 + (p0.2 - p1.2) ^ 2)

/-- `Path.pointsEqual`. -/
def pointsEqual (sq : ℚ → ℚ) (p0 p1 : Point) : Bool :=
  decide (dist sq p0 p1 < 1 / 10 ^ 5)

/-- `Path.routePointIndex`: index of the route waypoint closest to the
snapped point (strictly closest, first wins; `-1` for an empty route). -/
def routePointIndex (sq : ℚ → ℚ) (pt : TrailPoint) : ℤ :=
  (pt.trail.route.foldl
    (fun (acc : ℚ × ℤ × ℤ) iPt =>
      let d := dist sq iPt pt.pt
      if d < acc.1 then (d, acc.2.2, acc.2.2 + 1) else (acc.1, acc.2.1, acc.2.2 + 1))
    (bigSentinel, -1, 0)).2.1

/-- Indexing `route[i]` (out of bounds is JS `undefined`; the default below
is only produced along non-returning paths). -/
def getP (route : List Point) (i : ℤ) : Point :=
  if 0 ≤ i then route.getD i.toNat (0, 0) else (0, 0)

/-- The vertex walk `for (i = startIndex; i != endIndex; i += dir)` of
`routeOnTrail`, with fuel; `none` = the loop has not reached `endIndex`
within `fuel` iterations (for the diverging configurations below, for any
fuel). -/
def routeWalk (route : List Point) (endIndex dir : ℤ) : ℕ → ℤ → Option (List Point)
  | 0, i => if i = endIndex then some [] else none
  | fuel + 1, i =>
    if i = endIndex then some []
    else match routeWalk route endIndex dir fuel (i + dir) with
      | none => none
      | some rest => some (getP route i :: rest)

/-- `Path.routeOnTrail`: route between two points on the same trail.
`.ok none` is the JS `undefined` result, `.error .spin` a diverging walk. -/
def routeOnTrail (sq : ℚ → ℚ) (wfuel : ℕ) (start endp : TrailPoint) :
    Except Abort (Option (List Point)) :=
  let startIndex := routePointIndex sq start
  let endIndex := routePointIndex sq endp
  if startIndex = -1 ∨ endIndex = -1 then .ok none
  else if startIndex = endIndex then .ok (some [endp.pt])
  else
    let dir := (endIndex - startIndex) / |endIndex - startIndex|
    let route := start.trail.route
    let startIndex' := if dist sq start.pt (getP route (startIndex + dir)) <
        dist sq (getP route startIndex) (getP route (startIndex + dir))
      then startIndex + dir else startIndex
    let endIndex' := if dist sq endp.pt (getP route (endIndex - dir)) <
        dist sq (getP route endIndex) (getP route (endIndex - dir))
      then endIndex - dir else endIndex
    match routeWalk route endIndex' dir wfuel startIndex' with
    | none => .error .spin
    | some walked =>
      let endWaypoint := getP route endIndex'
      let r := walked ++ [endWaypoint]
      .ok (some (if pointsEqual sq endWaypoint endp.pt then r else r ++ [endp.pt]))

/-- `Path.matchIntersect`. -/
def matchIntersect (intersect : List Intersection) (id0 id1 : ℤ) : List Intersection :=
  intersect.filter (fun i =>
    decide ((i.trail0Id = id0 ∧ i.trail1Id = id1) ∨ (i.trail1Id = id0 ∧ i.trail0Id = id1)))

/-- `Path.splitIntersects`: the intersections touching `id`, and the rest. -/
def splitIntersects (intersect : List Intersection) (id : ℤ) :
    List Intersection × List Intersection :=
  intersect.partition (fun i => decide (i.trail0Id = id ∨ i.trail1Id = id))

/-- The shortest-route selection loop at the end of `findRouteStep`
(strict `<`, earliest minimum wins). -/
def chooseShortest (dm : Point → Point → ℚ) (r0 : List Point)
    (rest : List (List Point)) : List Point :=
  (rest.foldl (fun best r =>
      let d := routeLengthMiles dm r
      if d < best.2 then (r, d) else best)
    (r0, routeLengthMiles dm r0)).1

/-- `Path.findTrailIntersections`: for each visible trail, register an
intersection at each of its two endpoints that lies within
`TRAIL_INTERSECTION_THRESH` of another trail, deduplicated per point within
the same threshold.  (A trail with an empty route reads `route[0]` as JS
`undefined`; it is modelled with a default point — such degenerate features
never arise from the data pipeline.) -/
def findTrailIntersections (sq : ℚ → ℚ) (features : FeatureEntrySet) : List Intersection :=
  features.visibleFeatures.foldl (fun intersect feature =>
    match feature with
    | .site _ => intersect
    | .trail f =>
      let startPoint := f.route.headD (0, 0)
      let endPoint := f.route.getLastD (0, 0)
      let rs := features.closestTrail sq startPoint (some f.id)
      let re := features.closestTrail sq endPoint (some f.id)
      let withStart :=
        match rs with
        | (some st, startDist) =>
          if startDist < TRAIL_INTERSECTION_THRESH ∧
              (matchIntersect intersect f.id st.id).any
                (fun i => decide (dist sq i.point startPoint < TRAIL_INTERSECTION_THRESH))
                = false
          then intersect ++ [⟨startPoint, f.id, st.id⟩] else intersect
        | (none, _) => intersect
      match re with
      | (some en, endDist) =>
        if endDist < TRAIL_INTERSECTION_THRESH ∧
            (matchIntersect withStart f.id en.id).any
              (fun i => decide (dist sq i.point endPoint < TRAIL_INTERSECTION_THRESH))
              = false
        then withStart ++ [⟨endPoint, f.id, en.id⟩] else withStart
      | (none, _) => withStart) []

/-- `Path.findRouteStep`: the recursive cross-trail search.  The recursion
is structural on the `depth` argument (this is the termination argument for
the *recursion*; the claim-C2 theorems below address the rest). -/
def findRouteStep (sq : ℚ → ℚ) (dm : Point → Point → ℚ) (wfuel : ℕ)
    (features : FeatureEntrySet) (depth : ℕ) (start endp : TrailPoint)
    (intersects : List Intersection) : Except Abort (Option (List Point)) :=
    if start.trail.id = endp.trail.id then
      routeOnTrail sq wfuel start endp
    else
      match depth with
      | 0 => .ok none
      | depth + 1 => do
        let pr := splitIntersects intersects start.trail.id
        let routes ← pr.1.foldlM
          (fun (routes : List (List Point)) jct => do
            let jctPt : TrailPoint := ⟨start.trail, jct.point⟩
            let route ← routeOnTrail sq wfuel start jctPt
            let nextTrailId := if jct.trail0Id = start.trail.id
              then jct.trail1Id else jct.trail0Id
            match features.findTrail nextTrailId with
            | none => Except.error Abort.jsError
            | some t => do
              let nextRoute ← findRouteStep sq dm wfuel features depth ⟨t, jct.point⟩ endp pr.2
              match nextRoute with
              | none => pure routes
              | some nr =>
                match route with
                | none => Except.error Abort.jsError
                | some r => pure (routes ++ [r ++ nr]))
          []
        match routes with
        | [] => .ok none
        | r0 :: rest => .ok (some (chooseShortest dm r0 rest))

/-- `Path.findRoute`: same-trail quick case, else build the intersection
graph and search from depth `ROUTE_FINDING_DEPTH`. -/
def findRoute (sq : ℚ → ℚ) (dm : Point → Point → ℚ) (wfuel : ℕ)
    (features : FeatureEntrySet) (start endp : TrailPoint) :
    Except Abort (Option (List Point)) :=
  if start.trail.id = endp.trail.id then
    routeOnTrail sq wfuel start endp
  else
    let intersect := findTrailIntersections sq features
    findRouteStep sq dm wfuel features ROUTE_FINDING_DEPTH start endp intersect

end Path

/-- **C6.** In the same-trail sub-route computation `routeOnTrail`, if the
trail-route vertex index nearest to the snapped start point equals the one
nearest to the snapped end point, the returned sub-route is the single
snapped end point — a sub-route with no segments (`routeLengthMiles` 0 under
every distance interpretation): the path stayed at the same vertex. -/
theorem C6_routeOnTrail_same_index_empty (sq : ℚ → ℚ) (wfuel : ℕ)
    (start endp : TrailPoint)
    (heq : Path.routePointIndex sq start = Path.routePointIndex sq endp)
    (hne : Path.routePointIndex sq start ≠ -1) :
    Path.routeOnTrail sq wfuel start endp = .ok (some [endp.pt]) ∧
    (∀ dm : Point → Point → ℚ, routeLengthMiles dm [endp.pt] = 0) := by
  constructor
  · unfold Path.routeOnTrail
    rw [if_neg, if_pos heq]
    push_neg
    exact ⟨hne, heq ▸ hne⟩
  · intro dm
    rfl

/-- A one-vertex trail used to witness C6. -/
def c6Trail : TrailEntry := ⟨1, 0, "t", [((0:ℚ), (0:ℚ))], 0⟩

/-- Witness for C6: both points snap to vertex 0 of `c6Trail`. -/
theorem C6_routeOnTrail_same_index_empty_witness :
    Path.routeOnTrail (fun q => q) 0 ⟨c6Trail, (0, 0)⟩ ⟨c6Trail, (0, 0)⟩ =
      .ok (some [((0:ℚ), (0:ℚ))]) ∧
    (∀ dm : Point → Point → ℚ, routeLengthMiles dm [((0:ℚ), (0:ℚ))] = 0) := by
  have hidx : Path.routePointIndex (fun q => q) ⟨c6Trail, (0, 0)⟩ = 0 := by
    norm_num [Path.routePointIndex, Path.dist, c6Trail, bigSentinel]
  exact C6_routeOnTrail_same_index_empty (fun q => q) 0 ⟨c6Trail, (0, 0)⟩ ⟨c6Trail, (0, 0)⟩
    (by rw [hidx]) (by rw [hidx]; norm_num)

lemma closestFeatureStep_skip (sq : ℚ → ℚ) (coord : Point) (excl : Option ℤ)
    (f : FeatureEntry) (h : ∀ t : TrailEntry, f = .trail t → excl = some t.id) :
    ∀ acc, closestFeatureStep sq coord excl acc f = acc := by
  intro acc
  cases f with
  | site s => rfl
  | trail t =>
    have he : excl = some t.id := h t rfl
    unfold closestFeatureStep
    dsimp only
    rw [if_neg]
    simp [he]

lemma closestFeature_foldl_skip (sq : ℚ → ℚ) (coord : Point) (excl : Option ℤ)
    (l : List FeatureEntry)
    (h : ∀ f ∈ l, ∀ t : TrailEntry, f = .trail t → excl = some t.id) :
    ∀ acc, l.foldl (closestFeatureStep sq coord excl) acc = acc := by
  induction l with
  | nil => intro acc; rfl
  | cons f l ih =>
    intro acc
    rw [List.foldl_cons, closestFeatureStep_skip sq coord excl f (h f (by simp)),
      ih (fun g hg => h g (by simp [hg]))]

lemma closestFeatureStep_trail_or (sq : ℚ → ℚ) (coord : Point) (excl : Option ℤ)
    (acc : Option FeatureEntry × ℚ) (f : FeatureEntry) :
    (closestFeatureStep sq coord excl acc f).1 = acc.1 ∨
    ∃ t : TrailEntry, (closestFeatureStep sq coord excl acc f).1 =
      some (FeatureEntry.trail t) := by
  cases f with
  | site s => exact Or.inl rfl
  | trail t =>
    simp only [closestFeatureStep]
    by_cases h1 : excl ≠ some t.id
    · rw [if_pos h1]
      split_ifs with h2
      · exact Or.inr ⟨t, rfl⟩
      · exact Or.inl rfl
    · rw [if_neg h1]
      exact Or.inl rfl

lemma closestFeature_foldl_trail_or (sq : ℚ → ℚ) (coord : Point) (excl : Option ℤ)
    (l : List FeatureEntry) : ∀ acc : Option FeatureEntry × ℚ,
    (acc.1 = none ∨ ∃ t : TrailEntry, acc.1 = some (FeatureEntry.trail t)) →
    ((l.foldl (closestFeatureStep sq coord excl) acc).1 = none ∨
     ∃ t : TrailEntry, (l.foldl (closestFeatureStep sq coord excl) acc).1 =
       some (FeatureEntry.trail t)) := by
  induction l with
  | nil => intro acc h; exact h
  | cons f l ih =>
    intro acc h
    rw [List.foldl_cons]
    apply ih
    rcases closestFeatureStep_trail_or sq coord excl acc f with h1 | h1
    · rw [h1]; exact h
    · exact Or.inr (by obtain ⟨t, ht⟩ := h1; exact ⟨t, ht⟩)

/-- **C10.** If the visible features contain no trail entry, or every trail
entry is excluded by the `excludeId` argument, `closestFeature` returns no
feature together with the sentinel distance `1e100`; and whatever it
returns, it is never a site entry. -/
theorem C10_closestFeature_never_site (sq : ℚ → ℚ) (s : FeatureEntrySet)
    (coord : Point) (excludeId : Option ℤ) :
    ((∀ f ∈ s.visibleFeatures, ∀ t : TrailEntry, f = FeatureEntry.trail t →
        excludeId = some t.id) →
      s.closestFeature sq coord excludeId = (none, bigSentinel)) ∧
    (∀ f, (s.closestFeature sq coord excludeId).1 = some f →
      ∃ t : TrailEntry, f = FeatureEntry.trail t) := by
  constructor
  · intro h
    unfold FeatureEntrySet.closestFeature
    exact closestFeature_foldl_skip sq coord excludeId s.visibleFeatures h _
  · intro f hf
    have h := closestFeature_foldl_trail_or sq coord excludeId s.visibleFeatures
      (none, bigSentinel) (Or.inl rfl)
    unfold FeatureEntrySet.closestFeature at hf
    rcases h with h | ⟨t, ht⟩
    · rw [hf] at h; cases h
    · rw [hf] at ht
      exact ⟨t, by injection ht⟩

def c10Site : SiteEntry := ⟨5, 0, "s", "viewpoint", (0, 0)⟩

def c10Trail : TrailEntry := ⟨7, 0, "t", [((0:ℚ), (0:ℚ)), ((1:ℚ), (0:ℚ))], 0⟩

/-- Witness for C10: one site and one excluded trail give the sentinel. -/
theorem C10_closestFeature_never_site_witness :
    FeatureEntrySet.closestFeature (fun q => q)
      ⟨[], [FeatureEntry.site c10Site, FeatureEntry.trail c10Trail]⟩
      (0, 0) (some 7) = (none, bigSentinel) := by
  apply (C10_closestFeature_never_site (fun q => q)
    ⟨[], [FeatureEntry.site c10Site, FeatureEntry.trail c10Trail]⟩ (0, 0) (some 7)).1
  rintro f hf t rfl
  simp only [List.mem_cons, List.mem_singleton] at hf
  rcases hf with h | h | h
  · exact absurd h (by simp)
  · have ht : t = c10Trail := by injection h
    rw [ht]
    rfl
  · cases h

/-- Identity stand-in for `Math.sqrt`: it agrees with the real square root
on every comparison the diverging run below performs (all comparisons are
between `sq`-images, and squaring is monotone on nonnegatives). -/
def sqId : ℚ → ℚ := fun q => q

def dmZero : Point → Point → ℚ := fun _ _ => 0

/-- The two-vertex trail of the diverging run. -/
def c2Trail : TrailEntry := ⟨1, 0, "loop", [((0:ℚ), (0:ℚ)), ((1:ℚ), (0:ℚ))], 0⟩

/-- Snapped 2/5 of the way along the single segment: nearest vertex 0. -/
def c2Start : TrailPoint := ⟨c2Trail, (2/5, 0)⟩

/-- Snapped 3/5 of the way along: nearest vertex 1. -/
def c2End : TrailPoint := ⟨c2Trail, (3/5, 0)⟩

def c2Other : TrailEntry := ⟨2, 0, "other", [], 0⟩

lemma c2_start_idx : Path.routePointIndex sqId c2Start = 0 := by
  norm_num [Path.routePointIndex, Path.dist, sqId, c2Start, c2Trail, bigSentinel]

lemma c2_end_idx : Path.routePointIndex sqId c2End = 1 := by
  norm_num [Path.routePointIndex, Path.dist, sqId, c2End, c2Trail, bigSentinel]

/-- Once the walk index passes the end index with a positive step, it never
comes back: the loop `for (i = startIndex; i != endIndex; i += dir)` runs
forever, whatever the fuel. -/
lemma routeWalk_pos_diverges (route : List Point) :
    ∀ (fuel : ℕ) (i : ℤ), 1 ≤ i → Path.routeWalk route 0 1 fuel i = none := by
  intro fuel
  induction fuel with
  | zero =>
    intro i hi
    unfold Path.routeWalk
    rw [if_neg (by omega)]
  | succ f ih =>
    intro i hi
    unfold Path.routeWalk
    rw [if_neg (by omega), ih (i + 1) (by omega)]

/-- The double endpoint refinement swaps the indices past each other and the
walk diverges: `routeOnTrail` never returns on this input, for any fuel. -/
lemma routeOnTrail_c2_spins (wfuel : ℕ) :
    Path.routeOnTrail sqId wfuel c2Start c2End = .error Abort.spin := by
  unfold Path.routeOnTrail
  rw [c2_start_idx, c2_end_idx]
  norm_num [Path.getP, Path.dist, sqId, c2Start, c2End, c2Trail, List.getD,
    routeWalk_pos_diverges]

/-- **C2.** The depth-bounded parts of the claim hold: at depth 0 with start
and end on different trails `findRouteStep` returns the no-route sentinel
(`.ok none`, never an exception), each recursive call uses `depth - 1`
(`findRouteStep` is structurally recursive on `depth`), and `findRoute`
starts the search at `ROUTE_FINDING_DEPTH = 8`.  But the claim's headline —
"`findRouteStep` terminates on every input" — is false: on the same-trail
input `c2Start`/`c2End` the vertex walk inside `routeOnTrail` diverges
(returns abnormally for *every* fuel bound), at every depth. -/
theorem C2_findRouteStep_depth_bound_and_divergence :
    (∀ (sq : ℚ → ℚ) (dm : Point → Point → ℚ) (wfuel : ℕ) (features : FeatureEntrySet)
        (start endp : TrailPoint) (intersects : List Intersection),
        start.trail.id ≠ endp.trail.id →
        Path.findRouteStep sq dm wfuel features 0 start endp intersects = .ok none) ∧
    ROUTE_FINDING_DEPTH = 8 ∧
    (∀ (wfuel depth : ℕ) (dm : Point → Point → ℚ) (features : FeatureEntrySet)
        (intersects : List Intersection),
        Path.findRouteStep sqId dm wfuel features depth c2Start c2End intersects =
          .error Abort.spin) := by
  refine ⟨?_, rfl, ?_⟩
  · intro sq dm wfuel features start endp intersects hne
    rw [Path.findRouteStep.eq_def]
    rw [if_neg hne]
  · intro wfuel depth dm features intersects
    rw [Path.findRouteStep.eq_def]
    rw [if_pos (show c2Start.trail.id = c2End.trail.id from rfl)]
    exact routeOnTrail_c2_spins wfuel

/-- Witness for C2: concrete instances of both universally quantified
conjuncts, the first with its different-trails hypothesis discharged. -/
theorem C2_findRouteStep_depth_bound_and_divergence_witness :
    Path.findRouteStep sqId dmZero 0 ⟨[], []⟩ 0 c2Start ⟨c2Other, (0, 0)⟩ [] = .ok none ∧
    Path.findRouteStep sqId dmZero 5 ⟨[], []⟩ 3 c2Start c2End [] = .error Abort.spin :=
  ⟨C2_findRouteStep_depth_bound_and_divergence.1 sqId dmZero 0 ⟨[], []⟩ c2Start
      ⟨c2Other, (0, 0)⟩ [] (by decide),
   C2_findRouteStep_depth_bound_and_divergence.2.2 5 3 dmZero ⟨[], []⟩ []⟩
